import Mathlib

/-!
# Verification of the `autodoc` code-intelligence core

A shallow embedding of the core of the `autodoc` repository:

* `autodoc/analysis/dependency_graph.py` — the import dependency graph
  (`DependencyGraph.add_file`, `remove_file`, queries, `to_dict`/`from_dict`,
  the import-resolution policies and the resolution cache);
* `autodoc/analysis/semantic_changes.py` — the semantic change classifier
  (`SemanticChangeAnalyzer.classify_change` and its helpers,
  `analyze_import_impact`);
* `autodoc/analysis/ast_parser.py` — the structural fingerprint
  (`ASTParser.compute_ast_hash`, `_get_ast_structure`) and the guards of
  `extract_definitions` / `extract_imports`;
* `autodoc/core/scan.py` — the scan orchestrator (`parse_file_ast`,
  `scan_repository`).

Python dictionaries are modelled as insertion-ordered association lists
(`PyDict`), Python sets of strings as duplicate-free insertion-ordered lists
(`PySet`).  Membership-level observations coincide with the Python
behaviour.  The external tree-sitter library and the `hashlib` SHA-256
digest are modelled as parameters: a syntax tree is a `TSNode` value
produced by the external parser, and every definition that hashes takes the
digest function `sha : String → String` as an argument.
-/

namespace Autodoc

/-! ## Python dictionary and set primitives -/

/-- Insertion-ordered association list modelling a Python `dict`.
`dict` keys are unique; the operations below keep keys unique when starting
from the empty dictionary. -/
abbrev PyDict (α β : Type) := List (α × β)

/-- `m[k]` lookup returning `none` when the key is missing (`dict.get`). -/
def pyLookup {α β : Type} [DecidableEq α] (m : PyDict α β) (k : α) : Option β :=
  match m with
  | [] => none
  | (k', v) :: rest => if k' = k then some v else pyLookup rest k

/-- `m[k] = v` assignment: an existing key keeps its position (Python dicts
preserve insertion order on overwrite); a fresh key is appended. -/
def pySet {α β : Type} [DecidableEq α] (m : PyDict α β) (k : α) (v : β) : PyDict α β :=
  if (pyLookup m k).isSome then
    m.map (fun e => if e.1 = k then (k, v) else e)
  else
    m ++ [(k, v)]

/-- `del m[k]`: removes the binding of `k`. -/
def pyDel {α β : Type} [DecidableEq α] (m : PyDict α β) (k : α) : PyDict α β :=
  m.filter (fun e => e.1 ≠ k)

/-- Keys of a dictionary, in insertion order. -/
def pyKeys {α β : Type} (m : PyDict α β) : List α := m.map (·.1)

/-- A Python `set` of strings: duplicate-free list in insertion order. -/
abbrev PySet := List String

/-- `s.add x` on a Python set: no-op when the element is present, otherwise
the element is appended. -/
def PySet.add (s : PySet) (x : String) : PySet :=
  if x ∈ s then s else s ++ [x]

/-- `s.discard x` on a Python set: removes the element when present. -/
def PySet.discard (s : PySet) (x : String) : PySet :=
  s.filter (fun y => y ≠ x)

/-- `defaultdict(set)` read: a missing key reads as the empty set
(`dict.get(k, set())`). -/
def pyGetSet {α : Type} [DecidableEq α] (m : PyDict α PySet) (k : α) : PySet :=
  (pyLookup m k).getD []

/-- Python truthiness of an optional string: `None` and `""` are falsy. -/
def pyTruthy : Option String → Bool
  | none => false
  | some s => s ≠ ""

/-! ### Python string primitives

Spelled out over the character list of a `String`, mirroring the Python
`str` methods used by the sources. -/

/-- `s.startswith(pre)`. -/
def pyStartsWith (pre s : String) : Bool := pre.data.isPrefixOf s.data

/-- `s.endswith(suf)`. -/
def pyEndsWith (suf s : String) : Bool := List.isSuffixOf suf.data s.data

/-- `s[:n]`. -/
def pyTake (s : String) (n : Nat) : String := ⟨s.data.take n⟩

/-- `s[n:]`. -/
def pyDrop (s : String) (n : Nat) : String := ⟨s.data.drop n⟩

/-- `s.lower()` (the language tags and node types in play are ASCII). -/
def pyToLower (s : String) : String := ⟨s.data.map Char.toLower⟩

/-- `s.strip()`. -/
def pyStrip (s : String) : String :=
  ⟨((s.data.dropWhile Char.isWhitespace).reverse.dropWhile Char.isWhitespace).reverse⟩

/-- `c in s` for a single character. -/
def pyHasChar (c : Char) (s : String) : Bool := s.data.contains c

/-- `s.replace(a, b)` for single-character `a` and `b` (the only shape the
sources use: `"." → "/"` and `"\\" → "/"`). -/
def pyReplaceChar (a b : Char) (s : String) : String :=
  ⟨s.data.map (fun c => if c = a then b else c)⟩

/-- Whether `needle` occurs in `hay` (Python substring `in`). -/
def listHasSub (needle : List Char) : List Char → Bool
  | [] => needle.isPrefixOf []
  | c :: rest => needle.isPrefixOf (c :: rest) ∨ listHasSub needle rest

/-- `s.split(c)` for a single-character separator. -/
def splitChar (c : Char) : List Char → List (List Char)
  | [] => [[]]
  | x :: xs =>
    let r := splitChar c xs
    if x = c then [] :: r
    else
      match r with
      | h :: t => (x :: h) :: t
      | [] => [[x]]

/-- `s.split(c)` returning strings. -/
def pySplitChar (c : Char) (s : String) : List String :=
  (splitChar c s.data).map String.mk

/-! ## `pathlib.PurePosixPath`

`dependency_graph.py` manipulates paths through `pathlib.Path`; on the
POSIX systems the scanner targets this is `PurePosixPath` plus `resolve`.
A pure path is an absolute flag and a list of components; parsing collapses
spurious slashes and single-dot components exactly as `pathlib` does
(the rarely used `//` root is not distinguished from `/`). -/

structure PyPath where
  isAbs : Bool
  parts : List String
  deriving DecidableEq, Repr

/-- `Path(s)`: split on `/`, drop empty and `"."` components. -/
def PyPath.parse (s : String) : PyPath :=
  { isAbs := pyStartsWith "/" s
    parts := (pySplitChar '/' s).filter (fun seg => seg ≠ "" ∧ seg ≠ ".") }

/-- `str(p)`: `"."` for the empty relative path, otherwise the components
joined by `/`, with a leading `/` when absolute. -/
def PyPath.toStr (p : PyPath) : String :=
  if p.isAbs then "/" ++ String.intercalate "/" p.parts
  else if p.parts = [] then "." else String.intercalate "/" p.parts

/-- `p.parent`: drops the last component; the parents of `"."` and `"/"`
are themselves. -/
def PyPath.parent (p : PyPath) : PyPath :=
  { p with parts := p.parts.dropLast }

/-- `p / s`: joining with an absolute right operand discards the left
operand, as in `pathlib`. -/
def PyPath.join (p : PyPath) (s : String) : PyPath :=
  let q := PyPath.parse s
  if q.isAbs then q else { p with parts := p.parts ++ q.parts }

/-- Lexical elimination of `..` components (performed by `Path.resolve`). -/
def PyPath.normalizeParts (segs : List String) : List String :=
  segs.foldl (fun acc seg => if seg = ".." then acc.dropLast else acc ++ [seg]) []

/-- `p.resolve()` for a path that need not exist: make the path absolute
against the process working directory and eliminate `..` lexically. -/
def PyPath.resolve (cwd : String) (p : PyPath) : PyPath :=
  let q := if p.isAbs then p else { isAbs := true, parts := (PyPath.parse cwd).parts ++ p.parts }
  { isAbs := true, parts := PyPath.normalizeParts q.parts }

/-! ## Dependency graph (`autodoc/analysis/dependency_graph.py`) -/

/-- `DependencyNode`: metadata stored per tracked file.  The Python field
`imports : Set[str]` is modelled as a `PySet`. -/
structure DependencyNode where
  path : String
  imports : PySet
  language : Option String
  deriving DecidableEq, Repr

/-- `DependencyGraph` state: `_nodes`, `_dependencies`, `_dependents`
(both `defaultdict(set)`) and `_import_cache` keyed by
`(source path, import string)`; a cached `none` records an
unresolved import. -/
structure DependencyGraph where
  nodes : PyDict String DependencyNode
  deps : PyDict String PySet
  rdeps : PyDict String PySet
  cache : PyDict (String × String) (Option String)
  deriving Repr

/-- `DependencyGraph()`. -/
def DependencyGraph.empty : DependencyGraph :=
  { nodes := [], deps := [], rdeps := [], cache := [] }

/-- `_resolve_python_import(source_file, import_name)`: dot-relative imports
ascend `level - 1` directories from the importing file's directory and map
the dotted suffix to a path; absolute imports map dots to `/`.  Both try
a `.py` file and a package `__init__.py`, and succeed only when the
candidate (with separators normalised) is a tracked node. -/
def resolvePythonImport (nodes : PyDict String DependencyNode)
    (sourceFile importName : String) : Option String :=
  let candidates : List String :=
    if pyStartsWith "." importName then
      let sourceDir := (PyPath.parse sourceFile).parent.toStr
      let level := (importName.data.takeWhile (· = '.')).length
      let currentDir := (fun d => (List.range (level - 1)).foldl (fun p _ => p.parent) d)
        (PyPath.parse sourceDir)
      let modulePart := pyDrop importName level
      let modulePath :=
        if modulePart ≠ "" then currentDir.join (pyReplaceChar '.' '/' modulePart)
        else currentDir
      [modulePath.toStr ++ ".py", (modulePath.join "__init__.py").toStr]
    else
      let modulePath := pyReplaceChar '.' '/' importName
      [modulePath ++ ".py", modulePath ++ "/__init__.py"]
  candidates.firstM (fun c =>
    let c := pyReplaceChar '\\' '/' c
    if (pyLookup nodes c).isSome then some c else none)

/-- The extension list tried by `_resolve_javascript_import`. -/
def jsExtensions : List String := [".js", ".jsx", ".ts", ".tsx", ".mjs", ".cjs"]

/-- `_resolve_javascript_import(source_file, import_name)`: only `./` and
`../` imports are handled; the target is resolved (via `Path.resolve`,
which consults the process working directory `cwd`) against the importing
file's directory, trying the bare path, each extension, and per-extension
index files, and succeeds only on a tracked node. -/
def resolveJavascriptImport (cwd : String) (nodes : PyDict String DependencyNode)
    (sourceFile importName : String) : Option String :=
  if ¬ (pyStartsWith "./" importName ∨ pyStartsWith "../" importName) then none
  else
    let sourceDir := (PyPath.parse sourceFile).parent
    let targetPath := (sourceDir.join importName).resolve cwd
    let base := targetPath.toStr
    let candidates :=
      if jsExtensions.any (fun ext => pyEndsWith ext base) then [base]
      else [base] ++ jsExtensions.map (fun ext => base ++ ext)
        ++ jsExtensions.map (fun ext => (targetPath.join ("index" ++ ext)).toStr)
    candidates.firstM (fun c =>
      let c := pyReplaceChar '\\' '/' c
      if (pyLookup nodes c).isSome then some c else none)

/-- The language list of the JavaScript-family branch of `_resolve_import`. -/
def jsLanguages : List String := ["javascript", "typescript", "jsx", "tsx"]

/-- The uncached language dispatch of `_resolve_import`
(`dependency_graph.py:377-382`): the Python resolver for `"python"`, the
JavaScript resolver for the JavaScript family, `None` otherwise (including
a missing language). -/
def resolveFresh (cwd : String) (nodes : PyDict String DependencyNode)
    (sourceFile importName : String) (language : Option String) : Option String :=
  match language with
  | some lang =>
    if lang = "python" then resolvePythonImport nodes sourceFile importName
    else if lang ∈ jsLanguages then resolveJavascriptImport cwd nodes sourceFile importName
    else none
  | none => none

/-- `_resolve_import(source_file, import_name, language)`: a memoised cache
hit (even a cached `None`) is returned as is; on a miss the
language-specific resolver runs against the current nodes and the result —
resolved or not — is cached.  Returns the resolution and the updated
cache. -/
def resolveImport (cwd : String) (nodes : PyDict String DependencyNode)
    (cache : PyDict (String × String) (Option String))
    (sourceFile importName : String) (language : Option String) :
    Option String × PyDict (String × String) (Option String) :=
  match pyLookup cache (sourceFile, importName) with
  | some v => (v, cache)
  | none =>
    let resolved := resolveFresh cwd nodes sourceFile importName language
    (resolved, pySet cache (sourceFile, importName) resolved)

/-- The value `_resolve_import` produces for one import, seen from a given
cache and node set: the memoised answer when one exists, otherwise a fresh
resolution against the tracked nodes. -/
def resolveOnce (cwd : String) (nodes : PyDict String DependencyNode)
    (cache : PyDict (String × String) (Option String))
    (sourceFile : String) (language : Option String) (importName : String) :
    Option String :=
  match pyLookup cache (sourceFile, importName) with
  | some v => v
  | none => resolveFresh cwd nodes sourceFile importName language

/-- The edge-clearing loops shared by `add_file` and `remove_file`
(`dependency_graph.py:60-63`, `86-89`, `93-96`): for each `other` in
`others`, discard `path` from the adjacency entry of `other` when that
entry exists (`if other in the_map`). -/
def discardLoop (path : String) (others : List String)
    (m : PyDict String PySet) : PyDict String PySet :=
  others.foldl (fun m' other =>
    if (pyLookup m' other).isSome then
      pySet m' other ((pyGetSet m' other).discard path)
    else m') m

/-- One iteration of the import-resolution loop of `add_file`
(`dependency_graph.py:67-73`): resolve, cache, then record both edge
directions when resolution succeeded. -/
def addFileImportStep (cwd path : String) (language : Option String)
    (g : DependencyGraph) (importName : String) : DependencyGraph :=
  let (resolved, cache) := resolveImport cwd g.nodes g.cache path importName language
  let g := { g with cache := cache }
  match resolved with
  | some resolvedPath =>
    { g with deps := pySet g.deps path ((pyGetSet g.deps path).add resolvedPath),
             rdeps := pySet g.rdeps resolvedPath
               ((pyGetSet g.rdeps resolvedPath).add path) }
  | none => g

/-- The `if path in self._dependencies` block of `add_file`
(`dependency_graph.py:59-64`): discard the path from its old targets'
dependent sets and clear its outgoing edge set (the cleared entry stays in
the dictionary as an empty set). -/
def clearOldEdges (g : DependencyGraph) (path : String) : DependencyGraph :=
  if (pyLookup g.deps path).isSome then
    { g with deps := pySet g.deps path [],
             rdeps := discardLoop path (pyGetSet g.deps path) g.rdeps }
  else g

/-- `add_file(path, imports, language)`: stores the node, clears the path's
old outgoing edges (removing the path from the old targets' dependent
sets), then resolves each import and records both edge directions for each
resolution.  `cwd` is the ambient process working directory consulted by
`Path.resolve` in the JavaScript resolver. -/
def DependencyGraph.addFile (cwd : String) (g : DependencyGraph) (path : String)
    (imports : PySet) (language : Option String) : DependencyGraph :=
  let g := { g with nodes := pySet g.nodes path ⟨path, imports, language⟩ }
  imports.foldl (addFileImportStep cwd path language) (clearOldEdges g path)

/-- The `if path in self._dependencies` block of `remove_file`
(`dependency_graph.py:86-90`): discard the path from its targets' dependent
sets and delete its outgoing entry. -/
def removeDepsEntry (g : DependencyGraph) (path : String) : DependencyGraph :=
  if (pyLookup g.deps path).isSome then
    { g with deps := pyDel g.deps path,
             rdeps := discardLoop path (pyGetSet g.deps path) g.rdeps }
  else g

/-- The `if path in self._dependents` block of `remove_file`
(`dependency_graph.py:93-97`): discard the path from its dependents'
outgoing sets and delete its reverse entry. -/
def removeRdepsEntry (g : DependencyGraph) (path : String) : DependencyGraph :=
  if (pyLookup g.rdeps path).isSome then
    { g with deps := discardLoop path (pyGetSet g.rdeps path) g.deps,
             rdeps := pyDel g.rdeps path }
  else g

/-- `remove_file(path)`: removes both adjacency directions, the node, and
every cache entry whose source is `path` or whose value resolved to
`path`. -/
def DependencyGraph.removeFile (g : DependencyGraph) (path : String) : DependencyGraph :=
  if (pyLookup g.nodes path).isNone then g
  else
    let g := removeDepsEntry g path
    let g := removeRdepsEntry g path
    { g with nodes := pyDel g.nodes path,
             cache := g.cache.filter (fun e => e.1.1 ≠ path ∧ e.2 ≠ some path) }

/-- `get_dependencies(path)`: returns (a copy of) the outgoing edge set. -/
def DependencyGraph.getDependencies (g : DependencyGraph) (path : String) : PySet :=
  pyGetSet g.deps path

/-- `get_dependents(path)`: returns (a copy of) the reverse edge set. -/
def DependencyGraph.getDependents (g : DependencyGraph) (path : String) : PySet :=
  pyGetSet g.rdeps path

/-- `get_all_files()`. -/
def DependencyGraph.getAllFiles (g : DependencyGraph) : List String :=
  pyKeys g.nodes

/-- The `"nodes"` section of `to_dict()`: per path, the import list and the
language. -/
structure GraphNodeData where
  imports : List String
  language : Option String
  deriving DecidableEq, Repr

/-- The dictionary produced by `to_dict()`: the nodes map plus the two
adjacency maps restricted to non-empty entries, all in insertion order. -/
structure GraphDict where
  nodes : PyDict String GraphNodeData
  dependencies : PyDict String (List String)
  dependents : PyDict String (List String)
  deriving Repr

/-- `to_dict()`. -/
def DependencyGraph.toDict (g : DependencyGraph) : GraphDict :=
  { nodes := g.nodes.map (fun e => (e.1, ⟨e.2.imports, e.2.language⟩))
    dependencies := (g.deps.filter (fun e => e.2 ≠ [])).map (fun e => (e.1, e.2))
    dependents := (g.rdeps.filter (fun e => e.2 ≠ [])).map (fun e => (e.1, e.2)) }

/-- `from_dict(data)`: builds a fresh graph and replays `add_file` over the
stored nodes in insertion order; the `dependencies`/`dependents` sections
of the dictionary are not read. -/
def DependencyGraph.fromDict (cwd : String) (data : GraphDict) : DependencyGraph :=
  data.nodes.foldl (fun g e => g.addFile cwd e.1 e.2.imports e.2.language)
    DependencyGraph.empty

/-! ## Semantic change classifier (`autodoc/analysis/semantic_changes.py`) -/

/-- `DefinitionType` (`ast_parser.py`). -/
inductive DefinitionType where
  | function | «class» | method | variable | constant | interface
  deriving DecidableEq, Repr

/-- The `.value` string of a `DefinitionType`. -/
def DefinitionType.value : DefinitionType → String
  | .function => "function"
  | .«class» => "class"
  | .method => "method"
  | .variable => "variable"
  | .constant => "constant"
  | .interface => "interface"

/-- `Definition` (`ast_parser.py`): `__post_init__` turns a missing
parameter list into `[]`, so `parameters` is a plain list here. -/
structure Definition where
  name : String
  type : DefinitionType
  line : Nat
  isPublic : Bool := true
  parameters : List String := []
  returnType : Option String := none
  deriving DecidableEq, Repr

/-- `ChangeCategory`. -/
inductive ChangeCategory where
  | breaking | additive | internal | docsOnly | unknown
  deriving DecidableEq, Repr

/-- The `.value` string of a `ChangeCategory`. -/
def ChangeCategory.value : ChangeCategory → String
  | .breaking => "breaking"
  | .additive => "additive"
  | .internal => "internal"
  | .docsOnly => "docs-only"
  | .unknown => "unknown"

/-- `DefinitionChange`. -/
structure DefinitionChange where
  name : String
  definitionType : DefinitionType
  changeType : String
  oldLine : Option Nat := none
  newLine : Option Nat := none
  isPublic : Bool := true
  deriving DecidableEq, Repr

/-- `SemanticChangeResult`. -/
structure SemanticChangeResult where
  category : ChangeCategory
  definitionChanges : List DefinitionChange
  hasBreakingChanges : Bool
  hasAdditions : Bool
  hasRemovals : Bool
  description : String
  deriving DecidableEq, Repr

/-- `{d.name: d for d in definitions}`: a Python dict comprehension keeps
the first-occurrence position of each key and the last-bound value. -/
def defMap (defs : List Definition) : PyDict String Definition :=
  defs.foldl (fun m d => pySet m d.name d) []

/-- `param.split(c)[0]`: the text before the first occurrence of `c`. -/
def pyBefore (c : Char) (s : String) : String := ⟨s.data.takeWhile (· ≠ c)⟩

/-- `param.split(c, 1)[1]`: the text after the first occurrence of `c`
(meaningful only when `c` occurs, as at its use sites). -/
def pyAfterFirst (c : Char) (s : String) : String := ⟨(s.data.dropWhile (· ≠ c)).drop 1⟩

/-- `s.rstrip("?")`. -/
def rstripQmark (s : String) : String :=
  String.mk ((s.data.reverse.dropWhile (· = '?')).reverse)

/-- The parameter name extracted at `semantic_changes.py:345`:
`param.split(":")[0].split("=")[0].strip().rstrip("?")`. -/
def paramNamePart (p : String) : String :=
  rstripQmark (pyStrip (pyBefore '=' (pyBefore ':' p)))

/-- The parameter type text extracted at `semantic_changes.py:357`:
`param.split(":", 1)[1].split("=")[0].strip()`. -/
def paramTypePart (p : String) : String :=
  pyStrip (pyBefore '=' (pyAfterFirst ':' p))

/-- `_is_definition_modified(old_def, new_def)`. -/
def isDefinitionModified (oldDef newDef : Definition) : Bool :=
  if oldDef.type ≠ newDef.type ∨ oldDef.isPublic ≠ newDef.isPublic then true
  else if oldDef.type = .function ∨ oldDef.type = .method then
    oldDef.parameters ≠ newDef.parameters ∨ oldDef.returnType ≠ newDef.returnType
  else false

/-- `_is_signature_change_breaking(old_def, new_def)`: trailing parameters
dropped without a default, a positional name change, a changed type
annotation when both sides carry one, or a return-type change. -/
def isSignatureChangeBreaking (oldDef newDef : Definition) : Bool :=
  if oldDef.type ≠ .function ∧ oldDef.type ≠ .method then false
  else
    let oldParams := oldDef.parameters
    let newParams := newDef.parameters
    let countDecreasedBreaking :=
      newParams.length < oldParams.length ∧
        (oldParams.drop newParams.length).any (fun p => ¬ pyHasChar '=' p)
    let pairBreaking := (oldParams.zip newParams).any (fun pq =>
      if paramNamePart pq.1 ≠ paramNamePart pq.2 then true
      else if pyHasChar ':' pq.1 ∧ pyHasChar ':' pq.2 then
        paramTypePart pq.1 ≠ paramTypePart pq.2
      else false)
    let returnBreaking :=
      oldDef.returnType ≠ newDef.returnType ∧
        (oldDef.returnType.isNone ≠ newDef.returnType.isNone ∨
         (pyTruthy oldDef.returnType ∧ pyTruthy newDef.returnType))
    countDecreasedBreaking ∨ pairBreaking ∨ returnBreaking

/-- `_determine_change_category_with_signatures`. -/
def determineChangeCategoryWithSignatures
    (addedPublic removedPublic modifiedPublic : List Definition)
    (breakingSignatureChanges : List (Definition × Definition))
    (allChanges : List DefinitionChange) : ChangeCategory :=
  if removedPublic ≠ [] ∨ breakingSignatureChanges ≠ [] then .breaking
  else if addedPublic ≠ [] ∧ removedPublic = [] ∧ modifiedPublic = [] then .additive
  else
    let publicChanges := allChanges.filter
      (fun c => c.isPublic ∧ c.changeType ≠ "unchanged")
    if publicChanges = [] then .internal
    else if modifiedPublic ≠ [] ∧ addedPublic = [] ∧ removedPublic = [] then .internal
    else if addedPublic ≠ [] ∧ modifiedPublic ≠ [] ∧ removedPublic = [] then .additive
    else .unknown

/-- `_build_change_description_with_signatures`. -/
def buildChangeDescriptionWithSignatures
    (addedPublic removedPublic modifiedPublic : List Definition)
    (breakingSignatureChanges : List (Definition × Definition))
    (allChanges : List DefinitionChange) : String :=
  let parts : List String :=
    (if removedPublic ≠ [] then
      ["Removed " ++ toString removedPublic.length ++ " public API(s)"] else []) ++
    (if breakingSignatureChanges ≠ [] then
      ["Breaking signature changes in " ++ toString breakingSignatureChanges.length
        ++ " function(s)"] else []) ++
    (if addedPublic ≠ [] then
      ["Added " ++ toString addedPublic.length ++ " public API(s)"] else []) ++
    (let nonBreakingMods : Int := (modifiedPublic.length : Int) - breakingSignatureChanges.length
     if modifiedPublic ≠ [] ∧ 0 < nonBreakingMods then
      ["Modified " ++ toString nonBreakingMods ++ " public API(s)"] else []) ++
    (let internalChanges := allChanges.filter
      (fun c => ¬ c.isPublic ∧ c.changeType ≠ "unchanged")
     if internalChanges ≠ [] then
      [toString internalChanges.length ++ " internal change(s)"] else [])
  if parts = [] then "No significant changes detected"
  else String.intercalate "; " parts

/-- `_classify_file_creation(definitions)`. -/
def classifyFileCreation (definitions : List Definition) : SemanticChangeResult :=
  let publicDefs := definitions.filter (·.isPublic)
  let defChanges := definitions.map (fun d =>
    { name := d.name, definitionType := d.type, changeType := "added",
      newLine := some d.line, isPublic := d.isPublic : DefinitionChange })
  let description :=
    "New file with " ++ toString definitions.length ++ " definition(s)" ++
      (if publicDefs ≠ [] then " (" ++ toString publicDefs.length ++ " public)" else "")
  { category := .additive, definitionChanges := defChanges,
    hasBreakingChanges := false, hasAdditions := true, hasRemovals := false,
    description := description }

/-- `_classify_file_deletion(definitions)`. -/
def classifyFileDeletion (definitions : List Definition) : SemanticChangeResult :=
  let publicDefs := definitions.filter (·.isPublic)
  let defChanges := definitions.map (fun d =>
    { name := d.name, definitionType := d.type, changeType := "removed",
      oldLine := some d.line, isPublic := d.isPublic : DefinitionChange })
  let hasBreaking := 0 < publicDefs.length
  let description :=
    "File deleted with " ++ toString definitions.length ++ " definition(s)" ++
      (if publicDefs ≠ [] then
        " (" ++ toString publicDefs.length ++ " public - BREAKING)" else "")
  { category := if hasBreaking then .breaking else .internal,
    definitionChanges := defChanges,
    hasBreakingChanges := hasBreaking, hasAdditions := false, hasRemovals := true,
    description := description }

/-- One step of the added/modified loop of `_classify_file_modification`
(`semantic_changes.py:222-254`), accumulating the emitted
`DefinitionChange`s, the public additions, the public modifications and the
breaking signature pairs. -/
def modificationStep (oldDefMap : PyDict String Definition)
    (acc : List DefinitionChange × List Definition × List Definition ×
      List (Definition × Definition))
    (e : String × Definition) :
    List DefinitionChange × List Definition × List Definition ×
      List (Definition × Definition) :=
  let (dcs, added, modified, bsc) := acc
  match pyLookup oldDefMap e.1 with
  | none =>
    (dcs ++ [{ name := e.1, definitionType := e.2.type, changeType := "added",
               newLine := some e.2.line, isPublic := e.2.isPublic }],
     (if e.2.isPublic then added ++ [e.2] else added), modified, bsc)
  | some oldDef =>
    if isDefinitionModified oldDef e.2 then
      (dcs ++ [{ name := e.1, definitionType := e.2.type, changeType := "modified",
                 oldLine := some oldDef.line, newLine := some e.2.line,
                 isPublic := e.2.isPublic }],
       added,
       (if e.2.isPublic then modified ++ [e.2] else modified),
       (if e.2.isPublic ∧ isSignatureChangeBreaking oldDef e.2 then
          bsc ++ [(oldDef, e.2)] else bsc))
    else acc

/-- `_classify_file_modification`: the structural-hash short circuit to
docs-only, then a name-keyed diff of the two declaration maps. -/
def classifyFileModification (oldDefinitions newDefinitions : List Definition)
    (oldHash newHash oldAstHash newAstHash : Option String) : SemanticChangeResult :=
  if pyTruthy oldAstHash ∧ pyTruthy newAstHash ∧ oldAstHash = newAstHash then
    { category := .docsOnly, definitionChanges := [],
      hasBreakingChanges := false, hasAdditions := false, hasRemovals := false,
      description := "Documentation-only changes (comments, docstrings, whitespace)" }
  else
    let oldDefMap := defMap oldDefinitions
    let newDefMap := defMap newDefinitions
    let removedEntries := oldDefMap.filter (fun e => (pyLookup newDefMap e.1).isNone)
    let removedChanges : List DefinitionChange := removedEntries.map (fun e =>
      { name := e.1, definitionType := e.2.type, changeType := "removed",
        oldLine := some e.2.line, isPublic := e.2.isPublic })
    let removedPublic := (removedEntries.map (·.2)).filter (·.isPublic)
    let folded := newDefMap.foldl (modificationStep oldDefMap) ([], [], [], [])
    let defChanges := removedChanges ++ folded.1
    let addedPublic := folded.2.1
    let modifiedPublic := folded.2.2.1
    let breakingSignatureChanges := folded.2.2.2
    let hasBreaking := 0 < removedPublic.length ∨ 0 < breakingSignatureChanges.length
    { category := determineChangeCategoryWithSignatures addedPublic removedPublic
        modifiedPublic breakingSignatureChanges defChanges,
      definitionChanges := defChanges,
      hasBreakingChanges := hasBreaking,
      hasAdditions := 0 < addedPublic.length,
      hasRemovals := 0 < removedPublic.length,
      description := buildChangeDescriptionWithSignatures addedPublic removedPublic
        modifiedPublic breakingSignatureChanges defChanges }

/-- `SemanticChangeAnalyzer.classify_change`: dispatch over the four
existence cases. -/
def classifyChange (oldDefinitions newDefinitions : List Definition)
    (oldHash newHash oldAstHash newAstHash : Option String)
    (fileExistsOld fileExistsNew : Bool) : SemanticChangeResult :=
  if ¬ fileExistsOld ∧ fileExistsNew then classifyFileCreation newDefinitions
  else if fileExistsOld ∧ ¬ fileExistsNew then classifyFileDeletion oldDefinitions
  else if fileExistsOld ∧ fileExistsNew then
    classifyFileModification oldDefinitions newDefinitions
      oldHash newHash oldAstHash newAstHash
  else
    { category := .unknown, definitionChanges := [],
      hasBreakingChanges := false, hasAdditions := false, hasRemovals := false,
      description := "Unable to classify change (both versions missing)" }

/-- `analyze_import_impact(changed_file, change_result, dependents)`:
a per-category templated message for each dependent; `dependents` is a
Python set, modelled as a list in iteration order. -/
def analyzeImportImpact (changedFile : String) (changeResult : SemanticChangeResult)
    (dependents : List String) : PyDict String String :=
  if dependents = [] then []
  else
    match changeResult.category with
    | .breaking => dependents.foldl (fun m d =>
        pySet m d ("May be broken by changes in " ++ changedFile ++ ": "
          ++ changeResult.description)) []
    | .additive => dependents.foldl (fun m d =>
        pySet m d ("New APIs available from " ++ changedFile ++ ": "
          ++ changeResult.description)) []
    | .internal => dependents.foldl (fun m d =>
        pySet m d ("Internal changes in " ++ changedFile
          ++ " (no API impact expected)")) []
    | .docsOnly => dependents.foldl (fun m d =>
        pySet m d ("Documentation updated in " ++ changedFile
          ++ " (no code impact)")) []
    | .unknown => []

/-! ## Structural parser (`autodoc/analysis/ast_parser.py`)

The tree-sitter library is external: a parsed syntax tree is modelled as a
`TSNode` value handed to us by the parser, carrying the node's type tag,
its named flag, the source slice `source[start_byte:end_byte]` and the
child list.  The SHA-256 digest from `hashlib` is likewise external and is
passed in as a function `sha : String → String` returning the hex
digest. -/

/-- A tree-sitter node: type tag, `is_named`, the source text covered by
the node, and its children. -/
inductive TSNode where
  | mk (type : String) (isNamed : Bool) (text : String) (children : List TSNode)

/-- The node's type tag. -/
def TSNode.type : TSNode → String
  | .mk t _ _ _ => t

/-- `ParsedAST(tree, source_code)`: `tree is None` encodes a failed parse
(`is_valid()` is false). -/
structure ParsedAST where
  tree : Option TSNode
  sourceCode : String

/-- `ParsedAST.is_valid()`. -/
def ParsedAST.isValid (ast : ParsedAST) : Bool := ast.tree.isSome

/-- Python `needle in haystack` on strings (substring containment). -/
def pySubstr (needle haystack : String) : Bool :=
  listHasSub needle.data haystack.data

mutual

/-- `_get_ast_structure(node, depth)`: depth-first parenthesised structure
string — comment nodes vanish, identifiers contribute their literal text in
quotes, string literals contribute an 8-hex-character content digest, and
the children of named nodes are nested recursively. -/
def getAstStructure (sha : String → String) (node : TSNode) (depth : Nat) : String :=
  match node with
  | .mk ty isNamed text children =>
    if pySubstr "comment" (pyToLower ty) then ""
    else
      let parts₀ := [ty]
      let parts₁ :=
        if ty = "identifier" then
          if text ≠ "" then parts₀ ++ ["\x27" ++ text ++ "\x27"] else parts₀
        else if ty = "string" ∨ ty = "string_literal" ∨ ty = "string_content" then
          if text ≠ "" then parts₀ ++ ["str:" ++ pyTake (sha text) 8] else parts₀
        else parts₀
      let parts₂ :=
        if isNamed then
          parts₁ ++ (getAstStructureChildren sha children (depth + 1)).filter
            (fun s => s ≠ "")
        else parts₁
      "(" ++ String.intercalate "," parts₂ ++ ")"

/-- The `for child in node.children` loop of `_get_ast_structure`, split
out so that the recursion is structural. -/
def getAstStructureChildren (sha : String → String) (nodes : List TSNode)
    (depth : Nat) : List String :=
  match nodes with
  | [] => []
  | c :: cs => getAstStructure sha c depth :: getAstStructureChildren sha cs depth

end

/-- `ASTParser.compute_ast_hash(ast)`: an `ast:`-tagged digest of the
structure string for a valid parse, a `source:`-tagged digest of the raw
text otherwise; both digests are truncated to 16 hex characters. -/
def computeAstHash (sha : String → String) (ast : ParsedAST) : String :=
  match ast.tree with
  | none => "source:" ++ pyTake (sha ast.sourceCode) 16
  | some root => "ast:" ++ pyTake (sha (getAstStructure sha root 0)) 16

/-- The language-specific extraction visitors
(`_extract_python_definitions`, `_extract_javascript_definitions`,
`_extract_python_imports`, `_extract_javascript_imports`).  They walk the
external tree-sitter tree; their outputs are modelled as functions of the
parsed AST since no claim depends on their internals. -/
structure Extractors where
  pythonDefinitions : ParsedAST → List Definition
  javascriptDefinitions : ParsedAST → List Definition
  pythonImports : ParsedAST → List String
  javascriptImports : ParsedAST → List String

/-- `ASTParser.is_supported_language(language)`. -/
def isSupportedLanguage (language : String) : Bool :=
  pyToLower language ∈ ["python", "javascript", "typescript", "jsx", "tsx"]

/-- `ASTParser.extract_definitions(ast)`: empty for an invalid AST,
otherwise the per-language visitor. -/
def extractDefinitions (E : Extractors) (language : String) (ast : ParsedAST) :
    List Definition :=
  if ¬ ast.isValid then []
  else if language = "python" then E.pythonDefinitions ast
  else if language ∈ jsLanguages then E.javascriptDefinitions ast
  else []

/-- `ASTParser.extract_imports(ast)`: empty for an invalid AST, otherwise
the per-language visitor. -/
def extractImports (E : Extractors) (language : String) (ast : ParsedAST) :
    List String :=
  if ¬ ast.isValid then []
  else if language = "python" then E.pythonImports ast
  else if language ∈ jsLanguages then E.javascriptImports ast
  else []

/-! ## Scan orchestrator (`autodoc/core/scan.py`) -/

/-- `ChangeType`. -/
inductive ChangeType where
  | added | modified | deleted | unchanged
  deriving DecidableEq, Repr

/-- The serialized definition dictionary stored in scan state and built by
`parse_file_ast` (`scan.py:174-182`): only `name`, `type`, `line` and
`is_public` survive serialization. -/
structure DefnInfo where
  name : String
  type : DefinitionType
  line : Nat
  isPublic : Bool
  deriving DecidableEq, Repr

/-- Reconstruction of a `Definition` from a stored dictionary, as done in
`scan_repository` before classification: `parameters` and `return_type`
are not stored, so they come back as `[]` and `None`. -/
def DefnInfo.toDefinition (d : DefnInfo) : Definition :=
  { name := d.name, type := d.type, line := d.line, isPublic := d.isPublic }

/-- `FileChange`. -/
structure FileChange where
  path : String
  changeType : ChangeType
  oldHash : Option String := none
  newHash : Option String := none
  oldAstHash : Option String := none
  newAstHash : Option String := none
  semanticCategory : Option String := none
  language : Option String := none
  definitions : List DefnInfo := []
  imports : List String := []
  deriving DecidableEq, Repr

/-- A stored per-file entry of `previous_state["files"]`; every key is
accessed with `.get`, so each field is optional or defaulted. -/
structure StoredFile where
  hash : Option String := none
  astHash : Option String := none
  definitions : List DefnInfo := []
  imports : List String := []
  language : Option String := none
  deriving DecidableEq, Repr

/-- One discoverable file of the repository, as seen by `scan_repository`:
its relative path, its content hash (`none` when `compute_file_hash` raises
and the file is skipped), its language tag, and the outcome of reading and
parsing it inside `parse_file_ast` (`none` when that `try` block raises
before producing a `ParsedAST`). -/
structure ScanFile where
  relPath : String
  contentHash : Option String
  language : Option String
  parseOutcome : Option ParsedAST

/-- `ScanResult` (the `dependency_graph` field is `None` when AST analysis
is disabled). -/
structure ScanResult where
  files : PyDict String FileChange
  added : List String
  modified : List String
  deleted : List String
  unchanged : List String
  dependencyGraph : Option DependencyGraph

/-- `parse_file_ast(file_path, language, ast_enabled)`: returns
`(ast_hash, definitions, imports)`, degrading to `(None, [], [])` when AST
analysis is disabled, the language is missing or unsupported, the `try`
block raises, or the parse produced an invalid AST. -/
def parseFileAst (E : Extractors) (sha : String → String)
    (treeSitterAvailable : Bool) (language : Option String) (astEnabled : Bool)
    (parseOutcome : Option ParsedAST) :
    Option String × List DefnInfo × List String :=
  if ¬ astEnabled ∨ ¬ treeSitterAvailable then (none, [], [])
  else
    match language with
    | none => (none, [], [])
    | some lang =>
      if ¬ isSupportedLanguage lang then (none, [], [])
      else
        match parseOutcome with
        | none => (none, [], [])
        | some ast =>
          if ¬ ast.isValid then (none, [], [])
          else
            let astHash := computeAstHash sha ast
            let definitions := (extractDefinitions E (pyToLower lang) ast).map (fun d =>
              ({ name := d.name, type := d.type, line := d.line,
                 isPublic := d.isPublic } : DefnInfo))
            let importsList := extractImports E (pyToLower lang) ast
            (some astHash, definitions, importsList)

/-- `set(imports)`: deduplication of the extracted import list. -/
def pySetOfList (l : List String) : PySet :=
  l.foldl PySet.add []

/-- The accumulating state of the `scan_repository` loops. -/
structure ScanState where
  files : PyDict String FileChange
  added : List String
  modified : List String
  deleted : List String
  unchanged : List String
  currentPaths : PySet
  graph : DependencyGraph

/-- The body of the per-file loop of `scan_repository`
(`scan.py:232-368`). -/
def scanStep (E : Extractors) (sha : String → String)
    (treeSitterAvailable astEnabled semanticEnabled : Bool) (cwd : String)
    (previousFiles : PyDict String StoredFile) (st : ScanState) (f : ScanFile) :
    ScanState :=
  let st := { st with currentPaths := st.currentPaths.add f.relPath }
  match f.contentHash with
  | none => st
  | some newHash =>
    let language := f.language
    let oldInfo := pyLookup previousFiles f.relPath
    let parsed := parseFileAst E sha treeSitterAvailable language astEnabled
      f.parseOutcome
    let astHash := parsed.1
    let definitions := parsed.2.1
    let importsList := parsed.2.2
    let st :=
      if importsList ≠ [] then
        { st with graph :=
            st.graph.addFile cwd f.relPath (pySetOfList importsList) language }
      else st
    match oldInfo with
    | none =>
      let change : FileChange :=
        { path := f.relPath, changeType := .added, newHash := some newHash,
          newAstHash := astHash, language := language,
          definitions := definitions, imports := importsList }
      let change :=
        if semanticEnabled ∧ pyTruthy astHash then
          let defs := definitions.map DefnInfo.toDefinition
          let res := classifyChange [] defs none (some newHash) none astHash false true
          { change with semanticCategory := some res.category.value }
        else change
      { st with files := pySet st.files f.relPath change,
                added := st.added ++ [f.relPath] }
    | some old =>
      if old.hash ≠ some newHash then
        let change : FileChange :=
          { path := f.relPath, changeType := .modified, oldHash := old.hash,
            newHash := some newHash, oldAstHash := old.astHash,
            newAstHash := astHash, language := language,
            definitions := definitions, imports := importsList }
        let change :=
          if semanticEnabled ∧ pyTruthy astHash then
            let oldDefs := old.definitions.map DefnInfo.toDefinition
            let newDefs := definitions.map DefnInfo.toDefinition
            let res := classifyChange oldDefs newDefs old.hash (some newHash)
              old.astHash astHash true true
            { change with semanticCategory := some res.category.value }
          else change
        { st with files := pySet st.files f.relPath change,
                  modified := st.modified ++ [f.relPath] }
      else
        let change : FileChange :=
          { path := f.relPath, changeType := .unchanged, oldHash := old.hash,
            newHash := some newHash, oldAstHash := old.astHash,
            newAstHash := old.astHash, language := language,
            definitions := old.definitions, imports := old.imports }
        let change :=
          if pyTruthy astHash ∧ ¬ pyTruthy old.astHash then
            { change with newAstHash := astHash, definitions := definitions,
                          imports := importsList }
          else change
        { st with files := pySet st.files f.relPath change,
                  unchanged := st.unchanged ++ [f.relPath] }

/-- The deleted-file loop of `scan_repository` (`scan.py:371-413`). -/
def scanDeletedStep (semanticEnabled : Bool) (st : ScanState)
    (e : String × StoredFile) : ScanState :=
  if e.1 ∈ st.currentPaths then st
  else
    let old := e.2
    let change : FileChange :=
      { path := e.1, changeType := .deleted, oldHash := old.hash,
        oldAstHash := old.astHash, language := old.language,
        definitions := old.definitions, imports := old.imports }
    let change :=
      if semanticEnabled ∧ old.definitions ≠ [] then
        let oldDefs := old.definitions.map DefnInfo.toDefinition
        let res := classifyChange oldDefs [] old.hash none old.astHash none true false
        { change with semanticCategory := some res.category.value }
      else change
    { st with files := pySet st.files e.1 change, deleted := st.deleted ++ [e.1] }

/-- `scan_repository(repo, previous_state, ast_enabled,
semantic_analysis_enabled)`: one pass over the discoverable files followed
by the deletion pass over the previously tracked files. -/
def scanRepository (E : Extractors) (sha : String → String)
    (treeSitterAvailable astEnabled semanticEnabled : Bool) (cwd : String)
    (sourceFiles : List ScanFile) (previousFiles : PyDict String StoredFile) :
    ScanResult :=
  let st0 : ScanState :=
    { files := [], added := [], modified := [], deleted := [], unchanged := [],
      currentPaths := [], graph := DependencyGraph.empty }
  let st := sourceFiles.foldl
    (scanStep E sha treeSitterAvailable astEnabled semanticEnabled cwd previousFiles)
    st0
  let st := previousFiles.foldl (scanDeletedStep semanticEnabled) st
  { files := st.files, added := st.added, modified := st.modified,
    deleted := st.deleted, unchanged := st.unchanged,
    dependencyGraph := if astEnabled then some st.graph else none }

/-! ## Derived notions used by the verification -/

/-- The mutual-inverse invariant of the two adjacency maps: `q` is an
outgoing edge of `p` exactly when `p` is a reverse edge of `q`. -/
def DependencyGraph.Inv (g : DependencyGraph) : Prop :=
  ∀ p q : String, q ∈ pyGetSet g.deps p ↔ p ∈ pyGetSet g.rdeps q

/-- Graph states reachable from `DependencyGraph()` by `add_file` /
`remove_file` calls. -/
inductive DependencyGraph.Reachable : DependencyGraph → Prop where
  | empty : DependencyGraph.Reachable .empty
  | addFile (cwd path : String) (imports : PySet) (language : Option String)
      {g : DependencyGraph} : DependencyGraph.Reachable g →
      DependencyGraph.Reachable (g.addFile cwd path imports language)
  | removeFile (path : String) {g : DependencyGraph} :
      DependencyGraph.Reachable g → DependencyGraph.Reachable (g.removeFile path)

/-- Well-formedness of the node table: keys are unique (Python `dict`) and
each stored node records its own key as `path`. -/
def DependencyGraph.NodesWF (g : DependencyGraph) : Prop :=
  (pyKeys g.nodes).Nodup ∧ ∀ e ∈ g.nodes, e.2.path = e.1

/-! ## The end-to-end scenario of the specification

`main.py` imports `util.py`; `util.py`'s single public function was removed
since the prior scan.  Scenario A is the plain reading of that setup:
the new `util.py` has no imports.  Scenario B additionally gives `util.py`
one (unresolvable) import `os`, which is what it takes for `util.py` to be
entered into the dependency graph at all. -/

namespace EndToEnd

/-- The stand-in for the external SHA-256 hex digest in the concrete
scenarios (the scenarios never rely on digest properties). -/
def digest : String → String := fun s => s

/-- The tree-sitter tree of the new `util.py`. -/
def treeUtil : TSNode := .mk "module" true "" []

/-- The tree-sitter tree of the (unchanged) `main.py`. -/
def treeMain : TSNode := .mk "module" true "" [.mk "identifier" true "util" []]

/-- Extraction results in scenario A: `main.py` imports `util`; the new
`util.py` has no declarations and no imports. -/
def extractorsA : Extractors :=
  { pythonDefinitions := fun _ => []
    javascriptDefinitions := fun _ => []
    pythonImports := fun ast => if ast.sourceCode = "import util" then ["util"] else []
    javascriptImports := fun _ => [] }

/-- Extraction results in scenario B: as in A, but the new
`util.py` imports `os`. -/
def extractorsB : Extractors :=
  { pythonDefinitions := fun _ => []
    javascriptDefinitions := fun _ => []
    pythonImports := fun ast =>
      if ast.sourceCode = "import util" then ["util"]
      else if ast.sourceCode = "import os" then ["os"] else []
    javascriptImports := fun _ => [] }

/-- The prior scan state: `util.py` with one public function `util_func`,
`main.py` importing `util`. -/
def prevFiles : PyDict String StoredFile :=
  [("util.py", { hash := some "h-util-1", astHash := some "ast:oldutil",
                 definitions := [⟨"util_func", .function, 1, true⟩],
                 imports := [], language := some "python" }),
   ("main.py", { hash := some "h-main-1", astHash := some "ast:oldmain",
                 definitions := [⟨"main", .function, 1, true⟩],
                 imports := ["util"], language := some "python" })]

/-- The repository contents at scan time in scenario A: `util.py` changed
(its function removed, no imports left), `main.py` unchanged. -/
def sourceFilesA : List ScanFile :=
  [{ relPath := "util.py", contentHash := some "h-util-2",
     language := some "python", parseOutcome := some ⟨some treeUtil, "x = 1"⟩ },
   { relPath := "main.py", contentHash := some "h-main-1",
     language := some "python", parseOutcome := some ⟨some treeMain, "import util"⟩ }]

/-- The repository contents in scenario B: as in A, but the new `util.py`
reads `import os`. -/
def sourceFilesB : List ScanFile :=
  [{ relPath := "util.py", contentHash := some "h-util-2",
     language := some "python", parseOutcome := some ⟨some treeUtil, "import os"⟩ },
   { relPath := "main.py", contentHash := some "h-main-1",
     language := some "python", parseOutcome := some ⟨some treeMain, "import util"⟩ }]

/-- The scan of scenario A. -/
def scanA : ScanResult := scanRepository extractorsA digest true true true "/" sourceFilesA prevFiles

/-- The scan of scenario B. -/
def scanB : ScanResult := scanRepository extractorsB digest true true true "/" sourceFilesB prevFiles

/-- The `ChangeResult` the scan computes for `util.py` in scenario A
(`classify_change` with the stored old declarations against the re-parsed
new ones). -/
def changeResultA : SemanticChangeResult :=
  classifyChange [⟨"util_func", .function, 1, true, [], none⟩] []
    (some "h-util-1") (some "h-util-2") (some "ast:oldutil")
    (some (computeAstHash digest ⟨some treeUtil, "x = 1"⟩)) true true

/-- The `ChangeResult` for `util.py` in scenario B. -/
def changeResultB : SemanticChangeResult :=
  classifyChange [⟨"util_func", .function, 1, true, [], none⟩] []
    (some "h-util-1") (some "h-util-2") (some "ast:oldutil")
    (some (computeAstHash digest ⟨some treeUtil, "import os"⟩)) true true

end EndToEnd

/-! ## Dictionary and set lemmas -/

theorem pyLookup_append {α β : Type} [DecidableEq α] (m m₂ : PyDict α β) (k : α) :
    pyLookup (m ++ m₂) k =
      match pyLookup m k with
      | some w => some w
      | none => pyLookup m₂ k := by
  induction m with
  | nil => simp [pyLookup]
  | cons e rest ih =>
    obtain ⟨a, b⟩ := e
    by_cases hak : a = k <;> simp [pyLookup, hak, ih]

theorem pyLookup_single {α β : Type} [DecidableEq α] (k : α) (v : β) (k' : α) :
    pyLookup [(k, v)] k' = if k' = k then some v else none := by
  simp only [pyLookup]
  by_cases h : k = k'
  · simp [h]
  · rw [if_neg h, if_neg (fun h' : k' = k => h h'.symm)]

theorem pyLookup_mapSet_ne {α β : Type} [DecidableEq α] (m : PyDict α β) (k : α)
    (v : β) (k' : α) (h : k' ≠ k) :
    pyLookup (m.map (fun e => if e.1 = k then (k, v) else e)) k' = pyLookup m k' := by
  induction m with
  | nil => simp
  | cons e rest ih =>
    obtain ⟨a, b⟩ := e
    rw [List.map_cons]
    by_cases hak : a = k
    · subst hak
      have hf : (if ((a, b) : α × β).1 = a then (a, v) else (a, b)) = (a, v) :=
        if_pos rfl
      rw [hf]
      simp only [pyLookup]
      rw [if_neg (fun h' : a = k' => h h'.symm), if_neg (fun h' : a = k' => h h'.symm), ih]
    · have hf : (if ((a, b) : α × β).1 = k then (k, v) else (a, b)) = (a, b) :=
        if_neg hak
      rw [hf]
      simp only [pyLookup, ih]

theorem pyLookup_mapSet_self {α β : Type} [DecidableEq α] (m : PyDict α β) (k : α)
    (v : β) (h : (pyLookup m k).isSome) :
    pyLookup (m.map (fun e => if e.1 = k then (k, v) else e)) k = some v := by
  induction m with
  | nil => simp [pyLookup] at h
  | cons e rest ih =>
    obtain ⟨a, b⟩ := e
    rw [List.map_cons]
    by_cases hak : a = k
    · subst hak
      have hf : (if ((a, b) : α × β).1 = a then (a, v) else (a, b)) = (a, v) :=
        if_pos rfl
      rw [hf]
      simp [pyLookup]
    · have hf : (if ((a, b) : α × β).1 = k then (k, v) else (a, b)) = (a, b) :=
        if_neg hak
      rw [hf]
      simp only [pyLookup, if_neg hak]
      exact ih (by simpa [pyLookup, hak] using h)

theorem pyLookup_pySet {α β : Type} [DecidableEq α] (m : PyDict α β) (k : α) (v : β)
    (k' : α) :
    pyLookup (pySet m k v) k' = if k' = k then some v else pyLookup m k' := by
  unfold pySet
  by_cases hsome : (pyLookup m k).isSome
  · rw [if_pos hsome]
    by_cases hk : k' = k
    · rw [if_pos hk, hk, pyLookup_mapSet_self m k v hsome]
    · rw [if_neg hk, pyLookup_mapSet_ne m k v k' hk]
  · rw [if_neg hsome, pyLookup_append, pyLookup_single]
    rw [Option.not_isSome_iff_eq_none] at hsome
    by_cases hk : k' = k
    · rw [hk, hsome]
    · rw [if_neg hk]
      cases h' : pyLookup m k' <;> simp [if_neg hk]

theorem pyLookup_pyDel {α β : Type} [DecidableEq α] (m : PyDict α β) (k k' : α) :
    pyLookup (pyDel m k) k' = if k' = k then none else pyLookup m k' := by
  induction m with
  | nil => simp [pyDel, pyLookup]
  | cons e rest ih =>
    obtain ⟨a, b⟩ := e
    by_cases hak : a = k <;> by_cases hk : k' = k
    · simp_all [pyDel, List.filter_cons, pyLookup]
    · have hkk : ¬ k = k' := fun h => hk h.symm
      simp_all [pyDel, List.filter_cons, pyLookup]
    · have hka : ¬ a = k' := fun h => hak (h.trans hk)
      simp_all [pyDel, List.filter_cons, pyLookup]
    · simp_all [pyDel, List.filter_cons, pyLookup]

theorem pyGetSet_pySet {α : Type} [DecidableEq α] (m : PyDict α PySet) (k : α)
    (v : PySet) (k' : α) :
    pyGetSet (pySet m k v) k' = if k' = k then v else pyGetSet m k' := by
  unfold pyGetSet
  rw [pyLookup_pySet]
  by_cases h : k' = k <;> simp [h]

theorem pyGetSet_pyDel {α : Type} [DecidableEq α] (m : PyDict α PySet) (k k' : α) :
    pyGetSet (pyDel m k) k' = if k' = k then [] else pyGetSet m k' := by
  unfold pyGetSet
  rw [pyLookup_pyDel]
  by_cases h : k' = k <;> simp [h]

theorem PySet.mem_add (s : PySet) (x y : String) :
    y ∈ s.add x ↔ y ∈ s ∨ y = x := by
  unfold PySet.add
  by_cases h : x ∈ s
  · rw [if_pos h]
    constructor
    · exact Or.inl
    · rintro (hy | rfl)
      · exact hy
      · exact h
  · rw [if_neg h]
    simp

theorem PySet.mem_discard (s : PySet) (x y : String) :
    y ∈ s.discard x ↔ y ∈ s ∧ y ≠ x := by
  unfold PySet.discard
  simp

theorem isSome_of_mem_pyGetSet {α : Type} [DecidableEq α] {m : PyDict α PySet}
    {k : α} {x : String} (h : x ∈ pyGetSet m k) : (pyLookup m k).isSome := by
  unfold pyGetSet at h
  cases hl : pyLookup m k
  · rw [hl] at h
    simp at h
  · simp

theorem mem_pyGetSet_discardLoop (path : String) (others : List String)
    (m : PyDict String PySet) (q r : String) :
    r ∈ pyGetSet (discardLoop path others m) q ↔
      r ∈ pyGetSet m q ∧ ¬ (r = path ∧ q ∈ others) := by
  induction others generalizing m with
  | nil => simp [discardLoop]
  | cons d rest ih =>
    unfold discardLoop at ih ⊢
    rw [List.foldl_cons, ih]
    have hstep : ∀ q' r',
        r' ∈ pyGetSet
          (if (pyLookup m d).isSome then pySet m d ((pyGetSet m d).discard path)
           else m) q'
          ↔ r' ∈ pyGetSet m q' ∧ ¬ (r' = path ∧ q' = d) := by
      intro q' r'
      by_cases hg : (pyLookup m d).isSome
      · rw [if_pos hg, pyGetSet_pySet]
        by_cases hq : q' = d
        · rw [if_pos hq, PySet.mem_discard, hq]
          tauto
        · rw [if_neg hq]
          tauto
      · rw [if_neg hg]
        by_cases hq : q' = d
        · have hnil : pyGetSet m q' = [] := by
            unfold pyGetSet
            rw [Option.not_isSome_iff_eq_none] at hg
            rw [hq, hg]
            rfl
          simp [hnil]
        · tauto
    rw [hstep]
    simp only [List.mem_cons]
    tauto

/-! ## The import-resolution fold of `add_file` -/

theorem addFileImportFold_spec (cwd path : String) (language : Option String)
    (N : PyDict String DependencyNode)
    (C : PyDict (String × String) (Option String)) (imps : List String) :
    ∀ (g : DependencyGraph) (processed : List String),
    g.nodes = N →
    (∀ s i, s ≠ path → pyLookup g.cache (s, i) = pyLookup C (s, i)) →
    (∀ i, pyLookup g.cache (path, i) =
      if i ∈ processed then some (resolveOnce cwd N C path language i)
      else pyLookup C (path, i)) →
    (imps.foldl (addFileImportStep cwd path language) g).nodes = N ∧
    (∀ q, q ≠ path →
      pyGetSet (imps.foldl (addFileImportStep cwd path language) g).deps q =
        pyGetSet g.deps q) ∧
    (∀ r, r ∈ pyGetSet (imps.foldl (addFileImportStep cwd path language) g).deps path ↔
      r ∈ pyGetSet g.deps path ∨
        ∃ i ∈ imps, resolveOnce cwd N C path language i = some r) ∧
    (∀ q r, r ∈ pyGetSet (imps.foldl (addFileImportStep cwd path language) g).rdeps q ↔
      r ∈ pyGetSet g.rdeps q ∨
        (r = path ∧ ∃ i ∈ imps, resolveOnce cwd N C path language i = some q)) := by
  induction imps with
  | nil =>
    intro g processed hn _ _
    exact ⟨hn, fun q _ => rfl, fun r => by simp, fun q r => by simp⟩
  | cons i rest ih =>
    intro g processed hn hco hcp
    rw [List.foldl_cons]
    have hlook := hcp i
    have hkey : pyLookup g.cache (path, i) = some (resolveOnce cwd N C path language i)
        ∨ (pyLookup g.cache (path, i) = none ∧ pyLookup C (path, i) = none ∧
           resolveOnce cwd N C path language i = resolveFresh cwd N path i language) := by
      by_cases hmem : i ∈ processed
      · left
        rw [hlook, if_pos hmem]
      · rw [if_neg hmem] at hlook
        cases hC : pyLookup C (path, i) with
        | some v =>
          left
          rw [hlook, hC]
          unfold resolveOnce
          rw [hC]
        | none =>
          right
          refine ⟨by rw [hlook, hC], rfl, ?_⟩
          unfold resolveOnce
          rw [hC]
    have hval : (resolveImport cwd g.nodes g.cache path i language).1 =
        resolveOnce cwd N C path language i := by
      rcases hkey with hk | ⟨hk, _, hfresh⟩
      · unfold resolveImport
        rw [hk]
      · unfold resolveImport
        rw [hk]
        show resolveFresh cwd g.nodes path i language = resolveOnce cwd N C path language i
        rw [hn, hfresh]
    have hc2 : ∀ s j,
        pyLookup (resolveImport cwd g.nodes g.cache path i language).2 (s, j) =
          if (s, j) = (path, i) then some (resolveOnce cwd N C path language i)
          else pyLookup g.cache (s, j) := by
      intro s j
      rcases hkey with hk | ⟨hk, _, hfresh⟩
      · have h2 : (resolveImport cwd g.nodes g.cache path i language).2 = g.cache := by
          unfold resolveImport
          rw [hk]
        rw [h2]
        by_cases hsj : (s, j) = (path, i)
        · rw [if_pos hsj]
          rw [show s = path from congrArg Prod.fst hsj,
              show j = i from congrArg Prod.snd hsj]
          exact hk
        · rw [if_neg hsj]
      · have h2 : (resolveImport cwd g.nodes g.cache path i language).2 =
            pySet g.cache (path, i) (resolveOnce cwd N C path language i) := by
          unfold resolveImport
          rw [hk]
          show pySet g.cache (path, i) (resolveFresh cwd g.nodes path i language) = _
          rw [hn, hfresh]
        rw [h2, pyLookup_pySet]
    cases hr : resolveOnce cwd N C path language i with
    | some rp =>
      have hstep : addFileImportStep cwd path language g i =
          { g with
            cache := (resolveImport cwd g.nodes g.cache path i language).2,
            deps := pySet g.deps path ((pyGetSet g.deps path).add rp),
            rdeps := pySet g.rdeps rp ((pyGetSet g.rdeps rp).add path) } := by
        unfold addFileImportStep
        rcases hres : resolveImport cwd g.nodes g.cache path i language with ⟨rv, rc⟩
        have hrv : rv = some rp := by
          have h1 := hval
          rw [hres] at h1
          simp only at h1
          rw [h1, hr]
        subst hrv
        rfl
      rw [hstep]
      have hn₁ : ({ g with
            cache := (resolveImport cwd g.nodes g.cache path i language).2,
            deps := pySet g.deps path ((pyGetSet g.deps path).add rp),
            rdeps := pySet g.rdeps rp ((pyGetSet g.rdeps rp).add path) }
          : DependencyGraph).nodes = N := hn
      have hco₁ : ∀ s j, s ≠ path →
          pyLookup (resolveImport cwd g.nodes g.cache path i language).2 (s, j) =
            pyLookup C (s, j) := by
        intro s j hs
        rw [hc2 s j, if_neg (by simp [hs]), hco s j hs]
      have hcp₁ : ∀ j,
          pyLookup (resolveImport cwd g.nodes g.cache path i language).2 (path, j) =
            if j ∈ i :: processed then some (resolveOnce cwd N C path language j)
            else pyLookup C (path, j) := by
        intro j
        rw [hc2 path j]
        by_cases hj : j = i
        · subst hj
          rw [if_pos rfl, if_pos (List.mem_cons_self _ _)]
        · rw [if_neg (by simp [hj]), hcp j]
          by_cases hm : j ∈ processed
          · rw [if_pos hm, if_pos (List.mem_cons_of_mem _ hm)]
          · rw [if_neg hm, if_neg (by simp [hj, hm])]
      obtain ⟨ihn, ihdeps, ihdpath, ihrd⟩ :=
        ih _ (i :: processed) hn₁ hco₁ hcp₁
      refine ⟨ihn, ?_, ?_, ?_⟩
      · intro q hq
        rw [ihdeps q hq]
        show pyGetSet (pySet g.deps path ((pyGetSet g.deps path).add rp)) q =
          pyGetSet g.deps q
        rw [pyGetSet_pySet, if_neg hq]
      · intro r
        rw [ihdpath r]
        have hbase : pyGetSet (pySet g.deps path ((pyGetSet g.deps path).add rp)) path =
            (pyGetSet g.deps path).add rp := by
          rw [pyGetSet_pySet, if_pos rfl]
        rw [show pyGetSet ({ g with
            cache := (resolveImport cwd g.nodes g.cache path i language).2,
            deps := pySet g.deps path ((pyGetSet g.deps path).add rp),
            rdeps := pySet g.rdeps rp ((pyGetSet g.rdeps rp).add path) }
          : DependencyGraph).deps path = (pyGetSet g.deps path).add rp from hbase]
        rw [PySet.mem_add]
        simp only [List.mem_cons, exists_eq_or_imp, hr]
        constructor
        · rintro ((h | rfl) | h)
          · exact Or.inl h
          · exact Or.inr (Or.inl rfl)
          · exact Or.inr (Or.inr h)
        · rintro (h | h | h)
          · exact Or.inl (Or.inl h)
          · exact Or.inl (Or.inr (by injection h with h2; exact h2.symm))
          · exact Or.inr h
      · intro q r
        rw [ihrd q r]
        have hrd : pyGetSet ({ g with
            cache := (resolveImport cwd g.nodes g.cache path i language).2,
            deps := pySet g.deps path ((pyGetSet g.deps path).add rp),
            rdeps := pySet g.rdeps rp ((pyGetSet g.rdeps rp).add path) }
          : DependencyGraph).rdeps q =
            if q = rp then (pyGetSet g.rdeps rp).add path else pyGetSet g.rdeps q := by
          show pyGetSet (pySet g.rdeps rp ((pyGetSet g.rdeps rp).add path)) q = _
          rw [pyGetSet_pySet]
        rw [hrd]
        simp only [List.mem_cons, exists_eq_or_imp, hr]
        by_cases hq : q = rp
        · rw [if_pos hq, PySet.mem_add, ← hq]
          simp only [eq_self_iff_true, true_or, and_true]
          tauto
        · rw [if_neg hq]
          have hne : ¬ (some rp = some q) := by
            simp only [Option.some.injEq]
            exact fun h => hq h.symm
          tauto
    | none =>
      have hstep : addFileImportStep cwd path language g i =
          { g with
            cache := (resolveImport cwd g.nodes g.cache path i language).2 } := by
        unfold addFileImportStep
        rcases hres : resolveImport cwd g.nodes g.cache path i language with ⟨rv, rc⟩
        have hrv : rv = none := by
          have h1 := hval
          rw [hres] at h1
          simp only at h1
          rw [h1, hr]
        subst hrv
        rfl
      rw [hstep]
      have hco₁ : ∀ s j, s ≠ path →
          pyLookup (resolveImport cwd g.nodes g.cache path i language).2 (s, j) =
            pyLookup C (s, j) := by
        intro s j hs
        rw [hc2 s j, if_neg (by simp [hs]), hco s j hs]
      have hcp₁ : ∀ j,
          pyLookup (resolveImport cwd g.nodes g.cache path i language).2 (path, j) =
            if j ∈ i :: processed then some (resolveOnce cwd N C path language j)
            else pyLookup C (path, j) := by
        intro j
        rw [hc2 path j]
        by_cases hj : j = i
        · subst hj
          rw [if_pos rfl, if_pos (List.mem_cons_self _ _)]
        · rw [if_neg (by simp [hj]), hcp j]
          by_cases hm : j ∈ processed
          · rw [if_pos hm, if_pos (List.mem_cons_of_mem _ hm)]
          · rw [if_neg hm, if_neg (by simp [hj, hm])]
      obtain ⟨ihn, ihdeps, ihdpath, ihrd⟩ :=
        ih { g with cache := (resolveImport cwd g.nodes g.cache path i language).2 }
          (i :: processed) hn hco₁ hcp₁
      refine ⟨ihn, ihdeps, ?_, ?_⟩
      · intro r
        rw [ihdpath r]
        simp only [List.mem_cons, exists_eq_or_imp, hr]
        constructor
        · rintro (h | h)
          · exact Or.inl h
          · exact Or.inr (Or.inr h)
        · rintro (h | h | h)
          · exact Or.inl h
          · exact absurd h (by simp)
          · exact Or.inr h

      · intro q r
        rw [ihrd q r]
        simp only [List.mem_cons, exists_eq_or_imp, hr]
        constructor
        · rintro (h | ⟨rfl, h⟩)
          · exact Or.inl h
          · exact Or.inr ⟨rfl, Or.inr h⟩
        · rintro (h | ⟨rfl, hor⟩)
          · exact Or.inl h
          · rcases hor with hqe | h
            · exact absurd hqe (by simp)
            · exact Or.inr ⟨rfl, h⟩

/-! ## Graph phase lemmas and the adjacency invariant -/

theorem clearOldEdges_nodes (g : DependencyGraph) (path : String) :
    (clearOldEdges g path).nodes = g.nodes := by
  unfold clearOldEdges
  split <;> rfl

theorem clearOldEdges_cache (g : DependencyGraph) (path : String) :
    (clearOldEdges g path).cache = g.cache := by
  unfold clearOldEdges
  split <;> rfl

theorem pyGetSet_eq_nil_of_not_isSome {α : Type} [DecidableEq α]
    {m : PyDict α PySet} {k : α} (h : ¬ (pyLookup m k).isSome) :
    pyGetSet m k = [] := by
  unfold pyGetSet
  rw [Option.not_isSome_iff_eq_none] at h
  rw [h]
  rfl

theorem clearOldEdges_deps_path (g : DependencyGraph) (path : String) :
    pyGetSet (clearOldEdges g path).deps path = [] := by
  unfold clearOldEdges
  by_cases hg : (pyLookup g.deps path).isSome
  · rw [if_pos hg]
    show pyGetSet (pySet g.deps path []) path = []
    rw [pyGetSet_pySet, if_pos rfl]
  · rw [if_neg hg]
    exact pyGetSet_eq_nil_of_not_isSome hg

theorem clearOldEdges_deps_ne (g : DependencyGraph) (path q : String) (hq : q ≠ path) :
    pyGetSet (clearOldEdges g path).deps q = pyGetSet g.deps q := by
  unfold clearOldEdges
  by_cases hg : (pyLookup g.deps path).isSome
  · rw [if_pos hg]
    show pyGetSet (pySet g.deps path []) q = pyGetSet g.deps q
    rw [pyGetSet_pySet, if_neg hq]
  · rw [if_neg hg]

theorem clearOldEdges_rdeps_mem (g : DependencyGraph) (path q r : String) :
    r ∈ pyGetSet (clearOldEdges g path).rdeps q ↔
      r ∈ pyGetSet g.rdeps q ∧ ¬ (r = path ∧ q ∈ pyGetSet g.deps path) := by
  unfold clearOldEdges
  by_cases hg : (pyLookup g.deps path).isSome
  · rw [if_pos hg]
    exact mem_pyGetSet_discardLoop path (pyGetSet g.deps path) g.rdeps q r
  · rw [if_neg hg]
    rw [pyGetSet_eq_nil_of_not_isSome hg]
    simp

theorem addFile_spec (cwd : String) (g : DependencyGraph) (path : String)
    (imports : PySet) (language : Option String) :
    (g.addFile cwd path imports language).nodes
        = pySet g.nodes path ⟨path, imports, language⟩ ∧
    (∀ q, q ≠ path →
      pyGetSet (g.addFile cwd path imports language).deps q = pyGetSet g.deps q) ∧
    (∀ r, r ∈ pyGetSet (g.addFile cwd path imports language).deps path ↔
      ∃ i ∈ imports,
        resolveOnce cwd (pySet g.nodes path ⟨path, imports, language⟩) g.cache path
          language i = some r) ∧
    (∀ q r, r ≠ path →
      (r ∈ pyGetSet (g.addFile cwd path imports language).rdeps q ↔
        r ∈ pyGetSet g.rdeps q)) ∧
    (g.Inv → ∀ q,
      path ∈ pyGetSet (g.addFile cwd path imports language).rdeps q ↔
        ∃ i ∈ imports,
          resolveOnce cwd (pySet g.nodes path ⟨path, imports, language⟩) g.cache path
            language i = some q) := by
  have heq : g.addFile cwd path imports language =
      imports.foldl (addFileImportStep cwd path language)
        (clearOldEdges { g with nodes := pySet g.nodes path ⟨path, imports, language⟩ }
          path) := rfl
  set g0 : DependencyGraph :=
    { g with nodes := pySet g.nodes path ⟨path, imports, language⟩ } with hg0
  set g1 := clearOldEdges g0 path with hg1
  have hn1 : g1.nodes = pySet g.nodes path ⟨path, imports, language⟩ := by
    rw [hg1, clearOldEdges_nodes]
  have hc1 : g1.cache = g.cache := by
    rw [hg1, clearOldEdges_cache]
  obtain ⟨b1, b2, b3, b4⟩ :=
    addFileImportFold_spec cwd path language
      (pySet g.nodes path ⟨path, imports, language⟩) g.cache imports g1 []
      hn1
      (by intro s i _; rw [hc1])
      (by intro i; rw [hc1]; simp)
  rw [heq]
  refine ⟨b1, ?_, ?_, ?_, ?_⟩
  · intro q hq
    rw [b2 q hq, hg1]
    exact clearOldEdges_deps_ne g0 path q hq
  · intro r
    rw [b3 r, hg1, clearOldEdges_deps_path]
    simp
  · intro q r hr
    rw [b4 q r]
    have h1 : r ∈ pyGetSet g1.rdeps q ↔ r ∈ pyGetSet g.rdeps q := by
      rw [hg1, clearOldEdges_rdeps_mem]
      simp [hr]
    rw [h1]
    simp [hr]
  · intro hinv q
    rw [b4 q path]
    have h1 : ¬ path ∈ pyGetSet g1.rdeps q := by
      rw [hg1, clearOldEdges_rdeps_mem]
      rintro ⟨hmem, hno⟩
      exact hno ⟨rfl, (hinv path q).mpr hmem⟩
    simp [h1]

theorem addFile_inv (cwd : String) (g : DependencyGraph) (path : String)
    (imports : PySet) (language : Option String) (h : g.Inv) :
    (g.addFile cwd path imports language).Inv := by
  obtain ⟨-, h2, h3, h4, h5⟩ := addFile_spec cwd g path imports language
  intro p q
  by_cases hp : p = path
  · subst hp
    rw [(h3 q), (h5 h q)]
  · rw [h2 p hp, h4 q p hp]
    exact h p q

theorem removeDepsEntry_deps_path (g : DependencyGraph) (path : String) :
    pyGetSet (removeDepsEntry g path).deps path = [] := by
  unfold removeDepsEntry
  by_cases hg : (pyLookup g.deps path).isSome
  · rw [if_pos hg]
    show pyGetSet (pyDel g.deps path) path = []
    rw [pyGetSet_pyDel, if_pos rfl]
  · rw [if_neg hg]
    exact pyGetSet_eq_nil_of_not_isSome hg

theorem removeDepsEntry_deps_ne (g : DependencyGraph) (path q : String)
    (hq : q ≠ path) :
    pyGetSet (removeDepsEntry g path).deps q = pyGetSet g.deps q := by
  unfold removeDepsEntry
  by_cases hg : (pyLookup g.deps path).isSome
  · rw [if_pos hg]
    show pyGetSet (pyDel g.deps path) q = pyGetSet g.deps q
    rw [pyGetSet_pyDel, if_neg hq]
  · rw [if_neg hg]

theorem removeDepsEntry_rdeps_mem (g : DependencyGraph) (path q r : String) :
    r ∈ pyGetSet (removeDepsEntry g path).rdeps q ↔
      r ∈ pyGetSet g.rdeps q ∧ ¬ (r = path ∧ q ∈ pyGetSet g.deps path) := by
  unfold removeDepsEntry
  by_cases hg : (pyLookup g.deps path).isSome
  · rw [if_pos hg]
    exact mem_pyGetSet_discardLoop path (pyGetSet g.deps path) g.rdeps q r
  · rw [if_neg hg, pyGetSet_eq_nil_of_not_isSome hg]
    simp

theorem removeRdepsEntry_rdeps_path (g : DependencyGraph) (path : String) :
    pyGetSet (removeRdepsEntry g path).rdeps path = [] := by
  unfold removeRdepsEntry
  by_cases hg : (pyLookup g.rdeps path).isSome
  · rw [if_pos hg]
    show pyGetSet (pyDel g.rdeps path) path = []
    rw [pyGetSet_pyDel, if_pos rfl]
  · rw [if_neg hg]
    exact pyGetSet_eq_nil_of_not_isSome hg

theorem removeRdepsEntry_rdeps_ne (g : DependencyGraph) (path q : String)
    (hq : q ≠ path) :
    pyGetSet (removeRdepsEntry g path).rdeps q = pyGetSet g.rdeps q := by
  unfold removeRdepsEntry
  by_cases hg : (pyLookup g.rdeps path).isSome
  · rw [if_pos hg]
    show pyGetSet (pyDel g.rdeps path) q = pyGetSet g.rdeps q
    rw [pyGetSet_pyDel, if_neg hq]
  · rw [if_neg hg]

theorem removeRdepsEntry_deps_mem (g : DependencyGraph) (path q r : String) :
    r ∈ pyGetSet (removeRdepsEntry g path).deps q ↔
      r ∈ pyGetSet g.deps q ∧ ¬ (r = path ∧ q ∈ pyGetSet g.rdeps path) := by
  unfold removeRdepsEntry
  by_cases hg : (pyLookup g.rdeps path).isSome
  · rw [if_pos hg]
    exact mem_pyGetSet_discardLoop path (pyGetSet g.rdeps path) g.deps q r
  · rw [if_neg hg, pyGetSet_eq_nil_of_not_isSome hg]
    simp

theorem removeFile_inv (g : DependencyGraph) (path : String) (h : g.Inv) :
    (g.removeFile path).Inv := by
  unfold DependencyGraph.removeFile
  by_cases hnode : (pyLookup g.nodes path).isNone
  · rw [if_pos hnode]
    exact h
  · rw [if_neg hnode]
    unfold DependencyGraph.Inv
    intro p q
    show q ∈ pyGetSet (removeRdepsEntry (removeDepsEntry g path) path).deps p ↔
      p ∈ pyGetSet (removeRdepsEntry (removeDepsEntry g path) path).rdeps q
    rw [removeRdepsEntry_deps_mem]
    by_cases hq : q = path
    · rw [hq, removeRdepsEntry_rdeps_path]
      refine iff_of_false ?_ (List.not_mem_nil p)
      rintro ⟨hmem, hno⟩
      by_cases hp : p = path
      · rw [hp, removeDepsEntry_deps_path] at hmem
        exact List.not_mem_nil _ hmem
      · rw [removeDepsEntry_deps_ne g path p hp] at hmem
        refine hno ⟨rfl, ?_⟩
        rw [removeDepsEntry_rdeps_mem g path path p]
        exact ⟨(h p path).mp hmem, fun hc => hp hc.1⟩
    · rw [removeRdepsEntry_rdeps_ne _ _ _ hq, removeDepsEntry_rdeps_mem g path q p]
      by_cases hp : p = path
      · rw [hp, removeDepsEntry_deps_path]
        refine iff_of_false ?_ ?_
        · rintro ⟨hmem, -⟩
          exact List.not_mem_nil _ hmem
        · rintro ⟨hmem, hno⟩
          exact hno ⟨rfl, (h path q).mpr hmem⟩
      · rw [removeDepsEntry_deps_ne g path p hp]
        constructor
        · rintro ⟨hmem, -⟩
          exact ⟨(h p q).mp hmem, fun hc => hp hc.1⟩
        · rintro ⟨hmem, -⟩
          exact ⟨(h p q).mpr hmem, fun hc => hq hc.1⟩

theorem empty_inv : DependencyGraph.empty.Inv := by
  intro p q
  simp [DependencyGraph.empty, pyGetSet, pyLookup]

theorem inv_of_reachable {g : DependencyGraph} (h : g.Reachable) : g.Inv := by
  induction h with
  | empty => exact empty_inv
  | addFile cwd path imports language _ ih => exact addFile_inv cwd _ path imports language ih
  | removeFile path _ ih => exact removeFile_inv _ path ih

/-! ## Node-table well-formedness and the `from_dict` replay -/

theorem pyKeys_pySet {α β : Type} [DecidableEq α] (m : PyDict α β) (k : α) (v : β) :
    pyKeys (pySet m k v) =
      if (pyLookup m k).isSome then pyKeys m else pyKeys m ++ [k] := by
  unfold pySet
  by_cases h : (pyLookup m k).isSome
  · rw [if_pos h, if_pos h]
    unfold pyKeys
    rw [List.map_map]
    apply List.map_congr_left
    intro e _
    by_cases he : e.1 = k
    · simp [he]
    · simp [he]
  · rw [if_neg h, if_neg h]
    unfold pyKeys
    simp

theorem pyLookup_isSome_iff_mem {α β : Type} [DecidableEq α] (m : PyDict α β) (k : α) :
    (pyLookup m k).isSome ↔ k ∈ pyKeys m := by
  induction m with
  | nil => simp [pyLookup, pyKeys]
  | cons e rest ih =>
    obtain ⟨a, b⟩ := e
    by_cases hak : a = k
    · simp [pyLookup, pyKeys, hak]
    · have hka : ¬ k = a := fun h => hak h.symm
      simp only [pyLookup, if_neg hak, pyKeys, List.map_cons, List.mem_cons, hka,
        false_or]
      exact ih

theorem mem_pySet_entry {α β : Type} [DecidableEq α] (m : PyDict α β) (k : α) (v : β)
    (e : α × β) (he : e ∈ pySet m k v) : e ∈ m ∨ e = (k, v) := by
  unfold pySet at he
  by_cases h : (pyLookup m k).isSome
  · rw [if_pos h] at he
    obtain ⟨e', he', hee⟩ := List.mem_map.mp he
    by_cases h1 : e'.1 = k
    · rw [if_pos h1] at hee
      exact Or.inr hee.symm
    · rw [if_neg h1] at hee
      exact Or.inl (hee ▸ he')
  · rw [if_neg h] at he
    rcases List.mem_append.mp he with h1 | h1
    · exact Or.inl h1
    · exact Or.inr (List.mem_singleton.mp h1)

theorem addFile_nodes (cwd : String) (g : DependencyGraph) (path : String)
    (imports : PySet) (language : Option String) :
    (g.addFile cwd path imports language).nodes =
      pySet g.nodes path ⟨path, imports, language⟩ :=
  (addFile_spec cwd g path imports language).1

theorem removeDepsEntry_nodes (g : DependencyGraph) (path : String) :
    (removeDepsEntry g path).nodes = g.nodes := by
  unfold removeDepsEntry
  split <;> rfl

theorem removeRdepsEntry_nodes (g : DependencyGraph) (path : String) :
    (removeRdepsEntry g path).nodes = g.nodes := by
  unfold removeRdepsEntry
  split <;> rfl

theorem removeFile_nodes (g : DependencyGraph) (path : String) :
    (g.removeFile path).nodes =
      if (pyLookup g.nodes path).isNone then g.nodes else pyDel g.nodes path := by
  unfold DependencyGraph.removeFile
  by_cases h : (pyLookup g.nodes path).isNone
  · rw [if_pos h, if_pos h]
  · rw [if_neg h, if_neg h]
    show (pyDel (removeRdepsEntry (removeDepsEntry g path) path).nodes path) = _
    rw [removeRdepsEntry_nodes, removeDepsEntry_nodes]

theorem nodesWF_empty : DependencyGraph.empty.NodesWF := by
  constructor
  · simp [DependencyGraph.empty, pyKeys]
  · intro e he
    simp [DependencyGraph.empty] at he

theorem nodesWF_pySet (m : PyDict String DependencyNode) (path : String)
    (node : DependencyNode) (hwf : (pyKeys m).Nodup ∧ ∀ e ∈ m, e.2.path = e.1)
    (hnode : node.path = path) :
    (pyKeys (pySet m path node)).Nodup ∧ ∀ e ∈ pySet m path node, e.2.path = e.1 := by
  constructor
  · rw [pyKeys_pySet]
    by_cases h : (pyLookup m path).isSome
    · rw [if_pos h]
      exact hwf.1
    · rw [if_neg h]
      refine List.Nodup.append hwf.1 (List.nodup_singleton _) ?_
      intro a ha hb
      rw [List.mem_singleton] at hb
      subst hb
      exact h ((pyLookup_isSome_iff_mem m a).mpr ha)
  · intro e he
    rcases mem_pySet_entry m path node e he with h1 | h1
    · exact hwf.2 e h1
    · rw [h1]
      exact hnode

theorem nodesWF_addFile (cwd : String) (g : DependencyGraph) (path : String)
    (imports : PySet) (language : Option String) (hwf : g.NodesWF) :
    (g.addFile cwd path imports language).NodesWF := by
  unfold DependencyGraph.NodesWF
  rw [addFile_nodes]
  exact nodesWF_pySet g.nodes path ⟨path, imports, language⟩ hwf rfl

theorem nodesWF_removeFile (g : DependencyGraph) (path : String) (hwf : g.NodesWF) :
    (g.removeFile path).NodesWF := by
  unfold DependencyGraph.NodesWF
  rw [removeFile_nodes]
  by_cases h : (pyLookup g.nodes path).isNone
  · rw [if_pos h]
    exact hwf
  · rw [if_neg h]
    constructor
    · have hsub : pyKeys (pyDel g.nodes path) |>.Sublist (pyKeys g.nodes) := by
        unfold pyKeys pyDel
        exact List.Sublist.map _ (List.filter_sublist _)
      exact hwf.1.sublist hsub
    · intro e he
      unfold pyDel at he
      exact hwf.2 e (List.mem_of_mem_filter he)

theorem nodesWF_of_reachable {g : DependencyGraph} (h : g.Reachable) : g.NodesWF := by
  induction h with
  | empty => exact nodesWF_empty
  | addFile cwd path imports language _ ih => exact nodesWF_addFile cwd _ path imports language ih
  | removeFile path _ ih => exact nodesWF_removeFile _ path ih

theorem fromDict_fold_nodes (cwd : String) (L : PyDict String GraphNodeData) :
    ∀ g0 : DependencyGraph, (pyKeys L).Nodup →
    (∀ k ∈ pyKeys L, ¬ k ∈ pyKeys g0.nodes) →
    (L.foldl (fun g e => g.addFile cwd e.1 e.2.imports e.2.language) g0).nodes =
      g0.nodes ++ L.map (fun e => (e.1, ⟨e.1, e.2.imports, e.2.language⟩)) := by
  induction L with
  | nil =>
    intro g0 _ _
    simp
  | cons e L' ih =>
    intro g0 hnodup hdisj
    rw [List.foldl_cons]
    have h1 : (g0.addFile cwd e.1 e.2.imports e.2.language).nodes =
        g0.nodes ++ [(e.1, ⟨e.1, e.2.imports, e.2.language⟩)] := by
      rw [addFile_nodes]
      unfold pySet
      rw [if_neg]
      intro hsome
      exact hdisj e.1 (by simp [pyKeys]) ((pyLookup_isSome_iff_mem _ _).mp hsome)
    rw [ih (g0.addFile cwd e.1 e.2.imports e.2.language)
        (by
          have := hnodup
          simp only [pyKeys, List.map_cons, List.nodup_cons] at this
          exact this.2)
        (by
          intro k hk
          rw [h1]
          simp only [pyKeys, List.map_append, List.mem_append]
          rintro (hmem | hmem)
          · exact hdisj k (by simp [pyKeys] at hk ⊢; exact Or.inr hk) hmem
          · simp only [List.map_cons, List.map_nil, List.mem_singleton] at hmem
            have := hnodup
            simp only [pyKeys, List.map_cons, List.nodup_cons] at this
            rw [hmem] at hk
            exact this.1 (by simpa [pyKeys] using hk)), h1]
    simp

theorem fromDict_toDict_nodes (cwd : String) (g : DependencyGraph)
    (hwf : g.NodesWF) :
    (DependencyGraph.fromDict cwd g.toDict).nodes = g.nodes := by
  unfold DependencyGraph.fromDict DependencyGraph.toDict
  have hkeys : pyKeys (g.nodes.map fun e =>
      (e.1, ({ imports := e.2.imports, language := e.2.language } : GraphNodeData)))
      = pyKeys g.nodes := by
    unfold pyKeys
    rw [List.map_map]
    rfl
  rw [fromDict_fold_nodes cwd _ DependencyGraph.empty
      (by rw [hkeys]; exact hwf.1)
      (by intro k _ hk; simp [DependencyGraph.empty, pyKeys] at hk)]
  show (g.nodes.map fun e =>
      (e.1, ({ imports := e.2.imports, language := e.2.language } : GraphNodeData))).map
        (fun e => (e.1, ⟨e.1, e.2.imports, e.2.language⟩)) = g.nodes
  rw [List.map_map]
  have : ∀ e ∈ g.nodes,
      (e.1, (⟨e.1, e.2.imports, e.2.language⟩ : DependencyNode)) = e := by
    intro e he
    have hp := hwf.2 e he
    obtain ⟨a, b⟩ := e
    obtain ⟨np, ni, nl⟩ := b
    simp only at hp
    rw [Prod.mk.injEq]
    exact ⟨rfl, by rw [← hp]⟩
  calc (g.nodes.map fun e => (e.1, (⟨e.1, e.2.imports, e.2.language⟩ : DependencyNode)))
      = g.nodes.map id := List.map_congr_left (fun e he => this e he)
    _ = g.nodes := List.map_id _

/-! ## Claim theorems -/

/-- C9: a fallback fingerprint (from a source text whose parse failed) is
never equal, as a string, to an AST-derived fingerprint (from a
successfully parsed tree), whatever the digest function does — the tag
spaces `source:` and `ast:` differ. -/
theorem fallback_hash_ne_ast_hash (sha : String → String) (a b : ParsedAST)
    (ha : a.tree = none) (hb : b.tree.isSome) :
    computeAstHash sha a ≠ computeAstHash sha b := by
  obtain ⟨tb, htb⟩ := Option.isSome_iff_exists.mp hb
  have hA : computeAstHash sha a = "source:" ++ pyTake (sha a.sourceCode) 16 := by
    unfold computeAstHash
    rw [ha]
  have hB : computeAstHash sha b =
      "ast:" ++ pyTake (sha (getAstStructure sha tb 0)) 16 := by
    unfold computeAstHash
    rw [htb]
  rw [hA, hB]
  intro h
  have h' : ('s' :: 'o' :: 'u' :: 'r' :: 'c' :: 'e' :: ':'
        :: (pyTake (sha a.sourceCode) 16).data)
      = ('a' :: 's' :: 't' :: ':'
        :: (pyTake (sha (getAstStructure sha tb 0)) 16).data) := by
    have hd := congrArg String.data h
    rw [String.data_append, String.data_append] at hd
    exact hd
  simp at h'

/-- Witness for C9 at a concrete failed parse and a concrete tree. -/
theorem fallback_hash_ne_ast_hash_witness :
    computeAstHash (fun _ => "0f2a") ⟨none, "def f(:"⟩ ≠
      computeAstHash (fun _ => "0f2a") ⟨some (.mk "module" true "" []), "def f(): pass"⟩ :=
  fallback_hash_ne_ast_hash (fun _ => "0f2a") _ _ rfl rfl

/-- C8: deleting a file yields category Breaking exactly when some old
declaration was public, records every old declaration as a removed
`DefinitionChange`, and sets `has_removals`. -/
theorem deletion_classification (oldDefs : List Definition)
    (oldHash newHash oldAstHash newAstHash : Option String) :
    (classifyChange oldDefs [] oldHash newHash oldAstHash newAstHash true false).category
        = (if oldDefs.any (·.isPublic) then ChangeCategory.breaking
           else ChangeCategory.internal) ∧
    (classifyChange oldDefs [] oldHash newHash oldAstHash newAstHash true false).definitionChanges
        = oldDefs.map (fun d =>
            { name := d.name, definitionType := d.type, changeType := "removed",
              oldLine := some d.line, isPublic := d.isPublic }) ∧
    (classifyChange oldDefs [] oldHash newHash oldAstHash newAstHash true false).hasRemovals
        = true := by
  have hdisp : classifyChange oldDefs [] oldHash newHash oldAstHash newAstHash true false
      = classifyFileDeletion oldDefs := by
    unfold classifyChange
    simp
  rw [hdisp]
  unfold classifyFileDeletion
  refine ⟨?_, rfl, rfl⟩
  by_cases h : oldDefs.any (·.isPublic)
  · rw [if_pos h]
    have : 0 < (oldDefs.filter (·.isPublic)).length := by
      obtain ⟨x, hx, hp⟩ := List.any_eq_true.mp h
      exact List.length_pos.mpr (fun hnil => by
        have := List.mem_filter.mpr ⟨hx, hp⟩
        rw [hnil] at this
        exact List.not_mem_nil _ this)
    simp [this]
  · rw [if_neg h]
    have : (oldDefs.filter (·.isPublic)).length = 0 := by
      rw [List.length_eq_zero, List.filter_eq_nil]
      intro a ha
      intro hp
      exact h (List.any_eq_true.mpr ⟨a, ha, hp⟩)
    simp [this]

/-- C6: when both structural hashes are present, AST-derived (tagged
`ast:`) and equal, `classify_change` on an existing-in-both file
short-circuits to docs-only with an empty diff and all flags false,
whatever the declaration lists and raw content hashes are. -/
theorem equal_ast_hash_docs_only (oldDefs newDefs : List Definition)
    (oldHash newHash : Option String) (h : String)
    (hast : pyStartsWith "ast:" h = true) :
    classifyChange oldDefs newDefs oldHash newHash (some h) (some h) true true =
      { category := .docsOnly, definitionChanges := [],
        hasBreakingChanges := false, hasAdditions := false, hasRemovals := false,
        description := "Documentation-only changes (comments, docstrings, whitespace)" } := by
  have hne : h ≠ "" := by
    intro he
    rw [he] at hast
    exact absurd hast (by decide)
  have hdisp : classifyChange oldDefs newDefs oldHash newHash (some h) (some h) true true
      = classifyFileModification oldDefs newDefs oldHash newHash (some h) (some h) := by
    unfold classifyChange
    simp
  rw [hdisp]
  unfold classifyFileModification
  rw [if_pos]
  refine ⟨?_, ?_, rfl⟩ <;>
    · show pyTruthy (some h) = true
      unfold pyTruthy
      simp [hne]

/-- Witness for C6: two snapshots with the same AST-derived hash but
different raw hashes and different declaration lists. -/
theorem equal_ast_hash_docs_only_witness :
    pyStartsWith "ast:" "ast:00aa11bb22cc33dd" = true ∧
    classifyChange [⟨"f", .function, 1, true, ["a"], none⟩] []
        (some "raw1") (some "raw2")
        (some "ast:00aa11bb22cc33dd") (some "ast:00aa11bb22cc33dd") true true =
      { category := .docsOnly, definitionChanges := [],
        hasBreakingChanges := false, hasAdditions := false, hasRemovals := false,
        description := "Documentation-only changes (comments, docstrings, whitespace)" } :=
  ⟨by decide,
   equal_ast_hash_docs_only [⟨"f", .function, 1, true, ["a"], none⟩] []
     (some "raw1") (some "raw2") "ast:00aa11bb22cc33dd" (by decide)⟩

/-- C4 counterexample: adding a type annotation to a parameter
(`f(a)` → `f(a: int)`) is a modification of a public function whose
parameter annotation differs between versions, yet the breaking-signature
analysis does not report it as breaking and the classification is
Internal. -/
theorem annotated_param_added_not_breaking :
    isDefinitionModified ⟨"f", .function, 1, true, ["a"], none⟩
        ⟨"f", .function, 1, true, ["a: int"], none⟩ = true ∧
    isSignatureChangeBreaking ⟨"f", .function, 1, true, ["a"], none⟩
        ⟨"f", .function, 1, true, ["a: int"], none⟩ = false ∧
    (classifyChange [⟨"f", .function, 1, true, ["a"], none⟩]
        [⟨"f", .function, 1, true, ["a: int"], none⟩]
        (some "h1") (some "h2") (some "ast:1111") (some "ast:2222")
        true true).category = ChangeCategory.internal ∧
    (classifyChange [⟨"f", .function, 1, true, ["a"], none⟩]
        [⟨"f", .function, 1, true, ["a: int"], none⟩]
        (some "h1") (some "h2") (some "ast:1111") (some "ast:2222")
        true true).hasBreakingChanges = false := by
  refine ⟨by decide, by decide, by decide, by decide⟩

/-- C4 amended: a parameter type-annotation difference is reported as
breaking when both the old and the new parameter at the same position
carry an annotation (contain `:`); an annotation that is only added or
removed is not compared. -/
theorem annotation_diff_both_sides_breaking (oldDef newDef : Definition)
    (htype : oldDef.type = .function ∨ oldDef.type = .method) (i : Nat)
    (hio : i < oldDef.parameters.length) (hin : i < newDef.parameters.length)
    (hoc : pyHasChar ':' (oldDef.parameters.get ⟨i, hio⟩) = true)
    (hnc : pyHasChar ':' (newDef.parameters.get ⟨i, hin⟩) = true)
    (hdiff : paramTypePart (oldDef.parameters.get ⟨i, hio⟩) ≠
      paramTypePart (newDef.parameters.get ⟨i, hin⟩)) :
    isSignatureChangeBreaking oldDef newDef = true := by
  unfold isSignatureChangeBreaking
  rw [if_neg (by
    rintro ⟨h1, h2⟩
    rcases htype with h | h
    · exact h1 h
    · exact h2 h)]
  rw [decide_eq_true_eq]
  right
  left
  have hz : i < (oldDef.parameters.zip newDef.parameters).length := by
    rw [List.length_zip]
    omega
  refine List.any_eq_true.mpr
    ⟨(oldDef.parameters.zip newDef.parameters).get ⟨i, hz⟩,
     List.get_mem _ _ _, ?_⟩
  have hget : (oldDef.parameters.zip newDef.parameters).get ⟨i, hz⟩ =
      (oldDef.parameters.get ⟨i, hio⟩, newDef.parameters.get ⟨i, hin⟩) := by
    simp [List.get_eq_getElem, List.getElem_zip]
  rw [hget]
  by_cases hname : paramNamePart (oldDef.parameters.get ⟨i, hio⟩) ≠
      paramNamePart (newDef.parameters.get ⟨i, hin⟩)
  · simp only [if_pos hname]
  · rw [if_neg hname, if_pos ⟨hoc, hnc⟩]
    rw [decide_eq_true_eq]
    exact hdiff

/-- Witness for the amended C4: `f(x: int)` → `f(x: str)` is breaking. -/
theorem annotation_diff_both_sides_breaking_witness :
    isSignatureChangeBreaking ⟨"f", .function, 1, true, ["x: int"], none⟩
      ⟨"f", .function, 1, true, ["x: str"], none⟩ = true :=
  annotation_diff_both_sides_breaking
    ⟨"f", .function, 1, true, ["x: int"], none⟩
    ⟨"f", .function, 1, true, ["x: str"], none⟩
    (Or.inl rfl) 0 (by decide) (by decide) (by decide) (by decide) (by decide)

theorem modificationStep_bsc_mono (m : PyDict String Definition)
    (acc : List DefinitionChange × List Definition × List Definition ×
      List (Definition × Definition))
    (e : String × Definition) (h : acc.2.2.2 ≠ []) :
    (modificationStep m acc e).2.2.2 ≠ [] := by
  unfold modificationStep
  rcases acc with ⟨dcs, added, modified, bsc⟩
  cases pyLookup m e.1 with
  | none => exact h
  | some oldDef =>
    dsimp only
    by_cases hmod : isDefinitionModified oldDef e.2 = true
    · rw [if_pos hmod]
      by_cases hb : e.2.isPublic = true ∧ isSignatureChangeBreaking oldDef e.2 = true
      · simp only [if_pos hb]
        simp
      · simp only [if_neg hb]
        exact h
    · rw [if_neg hmod]
      exact h

theorem foldl_modificationStep_bsc_mono (m : PyDict String Definition)
    (L : PyDict String Definition)
    (acc : List DefinitionChange × List Definition × List Definition ×
      List (Definition × Definition)) (h : acc.2.2.2 ≠ []) :
    (L.foldl (modificationStep m) acc).2.2.2 ≠ [] := by
  induction L generalizing acc with
  | nil => exact h
  | cons e rest ih =>
    rw [List.foldl_cons]
    exact ih _ (modificationStep_bsc_mono m acc e h)

theorem foldl_modificationStep_bsc_ne_nil (oldMap : PyDict String Definition)
    (L : PyDict String Definition) (name : String) (oldDef newDef : Definition)
    (hn : pyLookup L name = some newDef) (ho : pyLookup oldMap name = some oldDef)
    (hmod : isDefinitionModified oldDef newDef = true)
    (hpub : newDef.isPublic = true)
    (hsig : isSignatureChangeBreaking oldDef newDef = true)
    (acc : List DefinitionChange × List Definition × List Definition ×
      List (Definition × Definition)) :
    (L.foldl (modificationStep oldMap) acc).2.2.2 ≠ [] := by
  induction L generalizing acc with
  | nil => simp [pyLookup] at hn
  | cons e rest ih =>
    rw [List.foldl_cons]
    obtain ⟨a, b⟩ := e
    by_cases hak : a = name
    · have hb : b = newDef := by
        simp [pyLookup, hak] at hn
        exact hn
      subst hak
      subst hb
      apply foldl_modificationStep_bsc_mono
      unfold modificationStep
      rcases acc with ⟨dcs, added, modified, bsc⟩
      dsimp only
      rw [ho]
      dsimp only
      rw [if_pos hmod]
      simp [hpub, hsig]
    · have hn' : pyLookup rest name = some newDef := by
        simpa [pyLookup, hak] using hn
      exact ih hn' _

theorem classifyFileModification_category_breaking
    (oldDefs newDefs : List Definition)
    (oldHash newHash oldAstHash newAstHash : Option String)
    (hcond : ¬ (pyTruthy oldAstHash = true ∧ pyTruthy newAstHash = true ∧
      oldAstHash = newAstHash))
    (hbsc : ((defMap newDefs).foldl (modificationStep (defMap oldDefs))
      ([], [], [], [])).2.2.2 ≠ []) :
    (classifyFileModification oldDefs newDefs oldHash newHash oldAstHash
      newAstHash).category = ChangeCategory.breaking := by
  unfold classifyFileModification
  rw [if_neg hcond]
  show determineChangeCategoryWithSignatures _ _ _
    ((defMap newDefs).foldl (modificationStep (defMap oldDefs)) ([], [], [], [])).2.2.2
    _ = ChangeCategory.breaking
  unfold determineChangeCategoryWithSignatures
  rw [if_pos (Or.inr hbsc)]

/-- C7: a modified public function or method whose new parameter list is
shorter, with at least one dropped trailing parameter carrying no default
(`=`), is reported as a breaking signature change and drives the overall
category to Breaking. -/
theorem dropped_param_without_default_breaking
    (oldDefs newDefs : List Definition) (name : String)
    (oldDef newDef : Definition)
    (oldHash newHash oldAstHash newAstHash : Option String)
    (ho : pyLookup (defMap oldDefs) name = some oldDef)
    (hn : pyLookup (defMap newDefs) name = some newDef)
    (htype : oldDef.type = .function ∨ oldDef.type = .method)
    (hpub : newDef.isPublic = true)
    (hlen : newDef.parameters.length < oldDef.parameters.length)
    (hdrop : ∃ p ∈ oldDef.parameters.drop newDef.parameters.length,
      pyHasChar '=' p = false)
    (hnodocs : ¬ (pyTruthy oldAstHash = true ∧ pyTruthy newAstHash = true ∧
      oldAstHash = newAstHash)) :
    isSignatureChangeBreaking oldDef newDef = true ∧
    (classifyChange oldDefs newDefs oldHash newHash oldAstHash newAstHash
      true true).category = ChangeCategory.breaking := by
  have hsig : isSignatureChangeBreaking oldDef newDef = true := by
    unfold isSignatureChangeBreaking
    rw [if_neg (by
      rintro ⟨h1, h2⟩
      rcases htype with h | h
      · exact h1 h
      · exact h2 h)]
    rw [decide_eq_true_eq]
    left
    refine ⟨hlen, ?_⟩
    obtain ⟨p, hp, hpc⟩ := hdrop
    refine List.any_eq_true.mpr ⟨p, hp, ?_⟩
    simp [hpc]
  have hmod : isDefinitionModified oldDef newDef = true := by
    unfold isDefinitionModified
    by_cases h1 : oldDef.type ≠ newDef.type ∨ oldDef.isPublic ≠ newDef.isPublic
    · rw [if_pos h1]
    · rw [if_neg h1, if_pos htype, decide_eq_true_eq]
      left
      intro he
      rw [he] at hlen
      exact lt_irrefl _ hlen
  refine ⟨hsig, ?_⟩
  have hdisp : classifyChange oldDefs newDefs oldHash newHash oldAstHash newAstHash
      true true = classifyFileModification oldDefs newDefs oldHash newHash
        oldAstHash newAstHash := by
    unfold classifyChange
    simp
  rw [hdisp]
  exact classifyFileModification_category_breaking oldDefs newDefs oldHash newHash
    oldAstHash newAstHash hnodocs
    (foldl_modificationStep_bsc_ne_nil (defMap oldDefs) (defMap newDefs) name
      oldDef newDef hn ho hmod hpub hsig _)

/-- Witness for C7: `f(a, b)` → `f(a)` with `b` lacking a default. -/
theorem dropped_param_without_default_breaking_witness :
    isSignatureChangeBreaking ⟨"f", .function, 1, true, ["a", "b"], none⟩
        ⟨"f", .function, 1, true, ["a"], none⟩ = true ∧
    (classifyChange [⟨"f", .function, 1, true, ["a", "b"], none⟩]
        [⟨"f", .function, 1, true, ["a"], none⟩]
        (some "h1") (some "h2") (some "ast:1111") (some "ast:2222")
        true true).category = ChangeCategory.breaking :=
  dropped_param_without_default_breaking
    [⟨"f", .function, 1, true, ["a", "b"], none⟩]
    [⟨"f", .function, 1, true, ["a"], none⟩] "f"
    ⟨"f", .function, 1, true, ["a", "b"], none⟩
    ⟨"f", .function, 1, true, ["a"], none⟩
    (some "h1") (some "h2") (some "ast:1111") (some "ast:2222")
    (by decide) (by decide) (Or.inl rfl) (by decide) (by decide)
    ⟨"b", by decide, by decide⟩ (by decide)

theorem isSome_pySet_any {α β : Type} [DecidableEq α] (m : PyDict α β) (k : α)
    (v : β) (k' : α) (h : (pyLookup m k').isSome) :
    (pyLookup (pySet m k v) k').isSome := by
  rw [pyLookup_pySet]
  split
  · simp
  · exact h

theorem scanStep_files_isSome (E : Extractors) (sha : String → String)
    (tsA aE sE : Bool) (cwd : String) (prev : PyDict String StoredFile)
    (st : ScanState) (f : ScanFile) (k : String)
    (h : (pyLookup st.files k).isSome) :
    (pyLookup (scanStep E sha tsA aE sE cwd prev st f).files k).isSome := by
  unfold scanStep
  rcases f.contentHash with _ | nh
  · exact h
  · dsimp only
    rcases hold : pyLookup prev f.relPath with _ | old <;> dsimp only
    · split <;> (dsimp only; exact isSome_pySet_any _ _ _ _ h)
    · split <;> split <;> (dsimp only; exact isSome_pySet_any _ _ _ _ h)

theorem scanStep_files_self (E : Extractors) (sha : String → String)
    (tsA aE sE : Bool) (cwd : String) (prev : PyDict String StoredFile)
    (st : ScanState) (f : ScanFile) (hch : f.contentHash.isSome) :
    (pyLookup (scanStep E sha tsA aE sE cwd prev st f).files f.relPath).isSome := by
  unfold scanStep
  rcases hc : f.contentHash with _ | nh
  · rw [hc] at hch
    exact absurd hch (by simp)
  · dsimp only
    rcases hold : pyLookup prev f.relPath with _ | old <;> dsimp only
    · split <;> (dsimp only; rw [pyLookup_pySet, if_pos rfl]; simp)
    · split <;> split <;> (dsimp only; rw [pyLookup_pySet, if_pos rfl]; simp)

theorem scanDeletedStep_files_isSome (sE : Bool) (st : ScanState)
    (e : String × StoredFile) (k : String) (h : (pyLookup st.files k).isSome) :
    (pyLookup (scanDeletedStep sE st e).files k).isSome := by
  unfold scanDeletedStep
  split
  · exact h
  · dsimp only
    exact isSome_pySet_any _ _ _ _ h

theorem scanFold_files_isSome (E : Extractors) (sha : String → String)
    (tsA aE sE : Bool) (cwd : String) (prev : PyDict String StoredFile)
    (L : List ScanFile) (st : ScanState) (k : String)
    (h : (pyLookup st.files k).isSome) :
    (pyLookup (L.foldl (scanStep E sha tsA aE sE cwd prev) st).files k).isSome := by
  induction L generalizing st with
  | nil => exact h
  | cons f rest ih =>
    rw [List.foldl_cons]
    exact ih _ (scanStep_files_isSome E sha tsA aE sE cwd prev st f k h)

theorem scanFold_files_self (E : Extractors) (sha : String → String)
    (tsA aE sE : Bool) (cwd : String) (prev : PyDict String StoredFile)
    (L : List ScanFile) :
    ∀ (st : ScanState) (f : ScanFile), f ∈ L → f.contentHash.isSome →
    (pyLookup (L.foldl (scanStep E sha tsA aE sE cwd prev) st).files f.relPath).isSome := by
  induction L with
  | nil =>
    intro st f hf _
    exact absurd hf (List.not_mem_nil f)
  | cons g rest ih =>
    intro st f hf hch
    rw [List.foldl_cons]
    rcases List.mem_cons.mp hf with rfl | hmem
    · exact scanFold_files_isSome E sha tsA aE sE cwd prev rest _ f.relPath
        (scanStep_files_self E sha tsA aE sE cwd prev st f hch)
    · exact ih _ f hmem hch

theorem deletedFold_files_isSome (sE : Bool) (L : PyDict String StoredFile)
    (st : ScanState) (k : String) (h : (pyLookup st.files k).isSome) :
    (pyLookup (L.foldl (scanDeletedStep sE) st).files k).isSome := by
  induction L generalizing st with
  | nil => exact h
  | cons e rest ih =>
    rw [List.foldl_cons]
    exact ih _ (scanDeletedStep_files_isSome sE st e k h)

/-- C5: on a failed structural parse, the extraction functions yield an
empty declaration list and an empty import set, `compute_ast_hash` yields
the `source:`-tagged fallback digest of the raw text, `parse_file_ast`
degrades to `(None, [], [])`, and a scan containing such files still
records an entry for every readable file. -/
theorem parse_failure_degrades (E : Extractors) (sha : String → String)
    (language : String) (ast : ParsedAST) (h : ast.tree = none) :
    extractDefinitions E language ast = [] ∧
    extractImports E language ast = [] ∧
    computeAstHash sha ast = "source:" ++ pyTake (sha ast.sourceCode) 16 ∧
    (∀ (tsA aE : Bool) (lang : Option String),
      parseFileAst E sha tsA lang aE (some ast) = (none, [], [])) ∧
    (∀ (tsA aE sE : Bool) (cwd : String) (sourceFiles : List ScanFile)
      (prev : PyDict String StoredFile) (f : ScanFile),
      f ∈ sourceFiles → f.contentHash.isSome →
      (pyLookup (scanRepository E sha tsA aE sE cwd sourceFiles prev).files
        f.relPath).isSome) := by
  have hvalid : ast.isValid = false := by
    unfold ParsedAST.isValid
    rw [h]
    rfl
  refine ⟨?_, ?_, ?_, ?_, ?_⟩
  · unfold extractDefinitions
    rw [if_pos (by rw [hvalid]; simp)]
  · unfold extractImports
    rw [if_pos (by rw [hvalid]; simp)]
  · unfold computeAstHash
    rw [h]
  · intro tsA aE lang
    unfold parseFileAst
    by_cases he : ¬ aE = true ∨ ¬ tsA = true
    · rw [if_pos he]
    · rw [if_neg he]
      cases lang with
      | none => rfl
      | some l =>
        by_cases hsup : isSupportedLanguage l = true
        · simp [hsup, hvalid]
        · simp [hsup]
  · intro tsA aE sE cwd sourceFiles prev f hf hch
    unfold scanRepository
    exact deletedFold_files_isSome sE prev _ f.relPath
      (scanFold_files_self E sha tsA aE sE cwd prev sourceFiles _ f hf hch)


/-- Witness for C5 at a concrete failed parse inside a two-file scan. -/
theorem parse_failure_degrades_witness :
    extractDefinitions
        ⟨fun _ => [⟨"f", .function, 1, true, [], none⟩], fun _ => [],
         fun _ => ["os"], fun _ => []⟩ "python" ⟨none, "def f(:"⟩ = [] ∧
    computeAstHash (fun s => s) ⟨none, "def f(:"⟩ =
      "source:" ++ pyTake "def f(:" 16 ∧
    parseFileAst
        ⟨fun _ => [⟨"f", .function, 1, true, [], none⟩], fun _ => [],
         fun _ => ["os"], fun _ => []⟩ (fun s => s) true (some "python") true
        (some ⟨none, "def f(:"⟩) = (none, [], []) ∧
    (pyLookup (scanRepository
        ⟨fun _ => [⟨"f", .function, 1, true, [], none⟩], fun _ => [],
         fun _ => ["os"], fun _ => []⟩ (fun s => s) true true true "/"
        [{ relPath := "bad.py", contentHash := some "hb",
           language := some "python", parseOutcome := some ⟨none, "def f(:"⟩ },
         { relPath := "good.py", contentHash := some "hg",
           language := some "python",
           parseOutcome := some ⟨some (.mk "module" true "" []), "x = 1"⟩ }]
        []).files "good.py").isSome := by
  obtain ⟨h1, -, h3, h4, h5⟩ := parse_failure_degrades
    ⟨fun _ => [⟨"f", .function, 1, true, [], none⟩], fun _ => [],
     fun _ => ["os"], fun _ => []⟩ (fun s => s) "python" ⟨none, "def f(:"⟩ rfl
  refine ⟨h1, h3, h4 true true (some "python"), ?_⟩
  exact h5 true true true "/"
    [⟨"bad.py", some "hb", some "python", some ⟨none, "def f(:"⟩⟩,
     ⟨"good.py", some "hg", some "python",
      some ⟨some (.mk "module" true "" []), "x = 1"⟩⟩]
    [] ⟨"good.py", some "hg", some "python",
      some ⟨some (.mk "module" true "" []), "x = 1"⟩⟩
    (List.mem_cons_of_mem _ (List.mem_cons_self _ _)) rfl

/-- C10: on every graph reachable from the empty `DependencyGraph` by
`add_file`/`remove_file`, the forward and reverse adjacency maps are mutual
inverses. -/
theorem dependency_graph_mutual_inverse {g : DependencyGraph}
    (h : g.Reachable) (p q : String) :
    q ∈ g.getDependencies p ↔ p ∈ g.getDependents q :=
  inv_of_reachable h p q

/-- Witness for C10 on a concrete two-step graph. -/
theorem dependency_graph_mutual_inverse_witness :
    ("util.py" ∈ ((DependencyGraph.empty.addFile "/" "util.py" [] (some "python")).addFile
        "/" "main.py" ["util"] (some "python")).getDependencies "main.py" ↔
      "main.py" ∈ ((DependencyGraph.empty.addFile "/" "util.py" [] (some "python")).addFile
        "/" "main.py" ["util"] (some "python")).getDependents "util.py") :=
  dependency_graph_mutual_inverse
    (.addFile "/" "main.py" ["util"] (some "python")
      (.addFile "/" "util.py" [] (some "python") .empty)) "main.py" "util.py"

/-- The stale-cache scenario: `main.py`'s import of `util` was first
resolved (and memoised as unresolved) before `util.py` was tracked;
re-adding `main.py` hits the stale cache entry. -/
def staleCacheGraph : DependencyGraph :=
  ((DependencyGraph.empty.addFile "/" "main.py" ["util"] (some "python")).addFile
    "/" "util.py" [] (some "python")).addFile "/" "main.py" ["util"] (some "python")

/-- C3 counterexample: after the final `add_file("main.py", {"util"})`,
the Python resolution policy against the currently tracked nodes yields
`util.py`, yet the outgoing edge set of `main.py` is empty — the memoised
`None` from the first add wins. -/
theorem stale_cache_defeats_fresh_resolution :
    staleCacheGraph.Reachable ∧
    resolvePythonImport staleCacheGraph.nodes "main.py" "util" = some "util.py" ∧
    resolveFresh "/" staleCacheGraph.nodes "main.py" "util" (some "python")
      = some "util.py" ∧
    staleCacheGraph.getDependencies "main.py" = [] ∧
    pyLookup staleCacheGraph.cache ("main.py", "util") = some none := by
  refine ⟨?_, by decide, by decide, by decide, by decide⟩
  exact .addFile "/" "main.py" ["util"] (some "python")
    (.addFile "/" "util.py" [] (some "python")
      (.addFile "/" "main.py" ["util"] (some "python") .empty))

/-- C3 amended: after `add_file(path, imports, language)` the outgoing edge
set of `path` is exactly the set of non-`None` results of the cache-aware
resolution (`resolveOnce`: the memoised answer when one exists, otherwise
the language policy against the currently tracked nodes); outgoing edges of
other paths are untouched, reverse edges of other sources are untouched,
and the reverse edges record exactly the new outgoing edges. -/
theorem addFile_edges_cache_aware (cwd : String) (g : DependencyGraph)
    (path : String) (imports : PySet) (language : Option String)
    (hg : g.Reachable) :
    (∀ r, r ∈ (g.addFile cwd path imports language).getDependencies path ↔
      ∃ i ∈ imports, resolveOnce cwd (pySet g.nodes path ⟨path, imports, language⟩)
        g.cache path language i = some r) ∧
    (∀ q, q ≠ path → (g.addFile cwd path imports language).getDependencies q =
      g.getDependencies q) ∧
    (∀ q r, r ≠ path → (r ∈ (g.addFile cwd path imports language).getDependents q ↔
      r ∈ g.getDependents q)) ∧
    (∀ q, path ∈ (g.addFile cwd path imports language).getDependents q ↔
      q ∈ (g.addFile cwd path imports language).getDependencies path) := by
  obtain ⟨h1, h2, h3, h4, h5⟩ := addFile_spec cwd g path imports language
  have hinv := inv_of_reachable hg
  exact ⟨h3, h2, fun q r hr => h4 q r hr, fun q => (h5 hinv q).trans (h3 q).symm⟩

/-- Witness for the amended C3: adding `a.py` importing `b` to a graph
already tracking `b.py` yields the edge `a.py → b.py`. -/
theorem addFile_edges_cache_aware_witness :
    "b.py" ∈ ((DependencyGraph.empty.addFile "/" "b.py" [] (some "python")).addFile
        "/" "a.py" ["b"] (some "python")).getDependencies "a.py" ↔
      ∃ i ∈ (["b"] : PySet),
        resolveOnce "/" (pySet (DependencyGraph.empty.addFile "/" "b.py" []
            (some "python")).nodes "a.py" ⟨"a.py", ["b"], some "python"⟩)
          (DependencyGraph.empty.addFile "/" "b.py" [] (some "python")).cache
          "a.py" (some "python") i = some "b.py" :=
  (addFile_edges_cache_aware "/"
      (DependencyGraph.empty.addFile "/" "b.py" [] (some "python"))
      "a.py" ["b"] (some "python") (.addFile "/" "b.py" [] (some "python")
        .empty)).1 "b.py"

/-- The build sequence of the C2 counterexample: `main.py` is tracked
before `util.py`, and its import only resolves on the later re-add. -/
def lateEdgeGraph : DependencyGraph :=
  ((DependencyGraph.empty.addFile "/" "main.py" [] (some "python")).addFile
    "/" "util.py" [] (some "python")).addFile "/" "main.py" ["util"] (some "python")

/-- C2 counterexample: the graph has the edge `main.py → util.py`, but
`from_dict(to_dict(g))` replays `add_file` in stored node order
(`main.py` first, against a node set not yet containing `util.py`), so the
round-tripped graph answers differently on both queries. -/
theorem roundtrip_changes_queries :
    lateEdgeGraph.Reachable ∧
    lateEdgeGraph.getDependencies "main.py" = ["util.py"] ∧
    lateEdgeGraph.getDependents "util.py" = ["main.py"] ∧
    (DependencyGraph.fromDict "/" lateEdgeGraph.toDict).getDependencies "main.py"
      = [] ∧
    (DependencyGraph.fromDict "/" lateEdgeGraph.toDict).getDependents "util.py"
      = [] := by
  refine ⟨?_, by decide, by decide, by decide, by decide⟩
  exact .addFile "/" "main.py" ["util"] (some "python")
    (.addFile "/" "util.py" [] (some "python")
      (.addFile "/" "main.py" [] (some "python") .empty))

/-- C2 amended: `from_dict(to_dict(g))` rebuilds exactly the tracked node
table — the same paths in the same insertion order, each with its
stored import set and language; the adjacency maps are recomputed by
re-resolving the imports in that order and need not reproduce the
original query answers. -/
theorem roundtrip_preserves_nodes (cwd : String) (g : DependencyGraph)
    (hg : g.Reachable) :
    (DependencyGraph.fromDict cwd g.toDict).nodes = g.nodes :=
  fromDict_toDict_nodes cwd g (nodesWF_of_reachable hg)

/-- Witness for the amended C2 on a concrete reachable graph. -/
theorem roundtrip_preserves_nodes_witness :
    (DependencyGraph.fromDict "/" ((DependencyGraph.empty.addFile "/" "util.py" []
        (some "python")).addFile "/" "main.py" ["util"] (some "python")).toDict).nodes
      = ((DependencyGraph.empty.addFile "/" "util.py" [] (some "python")).addFile
        "/" "main.py" ["util"] (some "python")).nodes :=
  roundtrip_preserves_nodes "/" _
    (.addFile "/" "main.py" ["util"] (some "python")
      (.addFile "/" "util.py" [] (some "python") .empty))

/-- C1 counterexample: in the end-to-end scenario (previous state:
`main.py` imports `util`, `util.py` has one public function; current: the
function is removed and `util.py` has no imports), the scan classifies
`util.py` as breaking, but `util.py` is never entered into the dependency
graph (`add_file` is guarded by `if imports:`), so `dependents("util.py")`
is empty and `analyze_import_impact` produces no message for `main.py`. -/
theorem end_to_end_dependents_empty :
    (pyLookup EndToEnd.scanA.files "util.py").map (·.semanticCategory)
      = some (some "breaking") ∧
    (EndToEnd.scanA.dependencyGraph.getD .empty).getDependents "util.py" = [] ∧
    analyzeImportImpact "util.py" EndToEnd.changeResultA
      ((EndToEnd.scanA.dependencyGraph.getD .empty).getDependents "util.py")
      = [] := by
  refine ⟨by decide, by decide, by decide⟩

/-- C1 amended: the end-to-end property holds once `util.py` itself has a
non-empty import set (so that it is entered into the graph) and precedes
`main.py` in the scan order: the ChangeResult is Breaking, the dependents
of `util.py` are exactly `{main.py}`, and the impact map sends `main.py` to
the may-be-broken message. -/
theorem end_to_end_with_tracked_util :
    (pyLookup EndToEnd.scanB.files "util.py").map (·.semanticCategory)
      = some (some "breaking") ∧
    EndToEnd.changeResultB.category = ChangeCategory.breaking ∧
    (EndToEnd.scanB.dependencyGraph.getD .empty).getDependents "util.py"
      = ["main.py"] ∧
    pyLookup (analyzeImportImpact "util.py" EndToEnd.changeResultB
        ((EndToEnd.scanB.dependencyGraph.getD .empty).getDependents "util.py"))
      "main.py"
      = some "May be broken by changes in util.py: Removed 1 public API(s)" := by
  refine ⟨by decide, by decide, by decide, by decide⟩

end Autodoc
